import Mathlib

/-!
Verification of the Mini-Zapier workflow execution engine.

This file shallowly embeds the engine's kernel:
  * `src/lib/variableSubstitution.ts` — the `{{path}}` templating resolver
    (`substituteVariables`, `substituteInString`, `getNestedValue`);
  * `src/lib/workflowEngine.ts` — `executeWorkflow`, `validateTrigger`,
    `updateExecutionStatus`;
  * the action dispatcher `executeAction` from `src/lib/actionHandlers`.

JavaScript values are modelled by the inductive type `Value`, which includes
an explicit `vUndef` constructor for `undefined` (distinct from `null`).
Numbers are modelled as integers: no claim under verification involves
fractional numerics.  Property access models own data properties only
(prototype properties such as `length` are outside the model).  Database and
network effects performed by the engine are modelled as an explicit event
trace (`EngineEvent`); the individual action handlers perform I/O and are
modelled by a handler oracle parameter, constrained in theorems exactly as
the concrete handlers in the repository behave (they always populate `error`
on failure and `data` on success).
-/

/-- A JavaScript value as manipulated by the engine: `undefined`, `null`,
booleans, (integer) numbers, strings, arrays, and objects whose fields are
kept in insertion order, as JavaScript objects do. -/
inductive Value where
  | vUndef
  | vNull
  | vBool (b : Bool)
  | vNum (n : Int)
  | vStr (s : String)
  | vArr (elems : List Value)
  | vObj (fields : List (String × Value))

/-- Decimal digit characters of a natural number, most significant first,
computed with explicit fuel so the function is structurally recursive; any
fuel exceeding the number works. -/
def natDigitsF : Nat → Nat → List Char
  | 0, _ => []
  | fuel + 1, n =>
    if n < 10 then [Char.ofNat (48 + n)]
    else natDigitsF fuel (n / 10) ++ [Char.ofNat (48 + n % 10)]

/-- Decimal digit characters of a natural number, most significant first;
`natRepr` below packages them as a string matching the JavaScript rendering
of a nonnegative integer index. -/
def natDigits (n : Nat) : List Char :=
  natDigitsF (n + 1) n

/-- Decimal rendering of a natural number, as JavaScript template literals
render the action index. -/
def natRepr (n : Nat) : String :=
  String.mk (natDigits n)

/-- Numeric value of a digit string, as computed by `parseInt` on an
all-digits key in `getNestedValue`. -/
def digitsToNat (s : String) : Nat :=
  s.data.foldl (fun n c => n * 10 + (c.toNat - 48)) 0

/-- The test `key.match` against an all-digits pattern in `getNestedValue`:
true iff the key is nonempty and consists only of decimal digits. -/
def isDigits (s : String) : Bool :=
  !s.data.isEmpty && s.data.all fun c => c.isDigit

mutual

/-- The string form `String(v)` JavaScript produces for a value: arrays
join their elements with commas (eliding `null`/`undefined` elements),
objects render opaquely. -/
def jsString : Value → String
  | .vUndef => "undefined"
  | .vNull => "null"
  | .vBool true => "true"
  | .vBool false => "false"
  | .vNum n => toString n
  | .vStr s => s
  | .vArr elems => String.intercalate "," (jsStringElems elems)
  | .vObj _ => "[object Object]"

/-- Rendering of array elements for `Array.prototype.toString`. -/
def jsStringElems : List Value → List String
  | [] => []
  | .vUndef :: rest => "" :: jsStringElems rest
  | .vNull :: rest => "" :: jsStringElems rest
  | v :: rest => jsString v :: jsStringElems rest
end

/-- Splitting a character list at dots, as `path.split` with separator `.`
does in `getNestedValue`; the result is always nonempty. -/
def splitDots : List Char → List (List Char)
  | [] => [[]]
  | c :: rest =>
    let r := splitDots rest
    if c = '.' then [] :: r
    else
      match r with
      | [] => [[c]]
      | seg :: segs => (c :: seg) :: segs

/-- Dropping leading and trailing whitespace, as `path.trim` does on the
captured placeholder content. -/
def trimChars (cs : List Char) : List Char :=
  ((cs.dropWhile Char.isWhitespace).reverse.dropWhile Char.isWhitespace).reverse

/-- Own-property access `v[key]` for a non-numeric key: a lookup in an
object's fields, `undefined` on every other receiver. -/
def jsProp (v : Value) (key : String) : Value :=
  match v with
  | .vObj fields => ((fields.lookup key).getD .vUndef)
  | _ => (.vUndef)

/-- The key-walking loop of `getNestedValue`: starting from `current`,
follow each key; `null`/`undefined` at the top of an iteration aborts with
`undefined`; an all-digits key indexes an array (anything else aborts);
any other key is an own-property access. -/
def nestedGo : Value → List String → Value
  | current, [] => current
  | .vNull, _ :: _ => .vUndef
  | .vUndef, _ :: _ => .vUndef
  | current, key :: keys =>
    if isDigits key then
      match current with
      | .vArr elems => nestedGo (elems.getD (digitsToNat key) .vUndef) keys
      | _ => .vUndef
    else nestedGo (jsProp current key) keys

/-- The source's `getNestedValue(obj, path)`: split the path at dots and
walk the keys; `undefined` signals resolution failure. -/
def getNestedValue (obj : Value) (path : String) : Value :=
  nestedGo obj ((splitDots path.data).map String.mk)

/-- One attempt of the global regex of `substituteInString` at the head of
the input: the pattern is two opening braces, a nonempty run of characters
other than a closing brace, then two closing braces.  Returns the captured
content when the pattern matches here; the full match consumes the content
plus the four brace characters. -/
def matchAt : List Char → Option (List Char)
  | c :: d :: rest =>
    if c = '{' ∧ d = '{' then
      let content := rest.takeWhile fun x => x ≠ '}'
      if content.isEmpty then none
      else
        match rest.drop content.length with
        | e :: f :: _ => if e = '}' ∧ f = '}' then some content else none
        | _ => none
    else none
  | _ => none

/-- The scanning loop of `substituteInString`, with explicit fuel making the
recursion structural (one unit of fuel per scan step suffices, so the
input's length does): wherever the placeholder regex matches, replace the
token by the string form of the value resolved from the trimmed content
against the context (keeping the token verbatim when resolution yields
`undefined`); everywhere else keep the character and move one position
forward, exactly as a global regex replace does. -/
def substCharsF (context : Value) : Nat → List Char → List Char
  | 0, s => s
  | fuel + 1, s =>
    match matchAt s with
    | some content =>
      (match getNestedValue context (String.mk (trimChars content)) with
        | .vUndef => '{' :: '{' :: (content ++ ['}', '}'])
        | v => (jsString v).data) ++
          substCharsF context fuel (s.drop (content.length + 4))
    | none =>
      match s with
      | [] => []
      | c :: rest => c :: substCharsF context fuel rest

/-- The body of `substituteInString` on character lists. -/
def substChars (context : Value) (s : List Char) : List Char :=
  substCharsF context s.length s

/-- The source's `substituteInString(str, context)`. -/
def substituteInString (str : String) (context : Value) : String :=
  String.mk (substChars context str.data)

mutual

/-- The source's `substituteVariables(obj, context)`: strings are rewritten
by `substituteInString`, arrays element-wise, objects value-wise; every
other value is returned unchanged. -/
def substituteVariables : Value → Value → Value
  | .vStr s, context => .vStr (substituteInString s context)
  | .vArr elems, context => .vArr (substituteList elems context)
  | .vObj fields, context => .vObj (substituteFields fields context)
  | v, _ => v

/-- Element-wise substitution over an array's elements. -/
def substituteList : List Value → Value → List Value
  | [], _ => []
  | v :: rest, context => substituteVariables v context :: substituteList rest context

/-- Value-wise substitution over an object's fields, keys untouched. -/
def substituteFields : List (String × Value) → Value → List (String × Value)
  | [], _ => []
  | (k, v) :: rest, context => (k, substituteVariables v context) :: substituteFields rest context

end

/-- A piece of a template string as the specification describes it: either a
literal character or a placeholder occurrence with its captured content. -/
inductive Token where
  | lit (c : Char)
  | ph (content : List Char)

/-- The fueled tokenizer loop; as with `substCharsF`, the input's length is
always enough fuel. -/
def tokenizeF : Nat → List Char → List Token
  | 0, _ => []
  | fuel + 1, s =>
    match matchAt s with
    | some content => .ph content :: tokenizeF fuel (s.drop (content.length + 4))
    | none =>
      match s with
      | [] => []
      | c :: rest => .lit c :: tokenizeF fuel rest

/-- Tokenization of a template string following the specification's words:
the non-overlapping occurrences of a double-braced token whose content is a
nonempty run of characters excluding the closing brace become placeholder
tokens, scanning left to right; all other characters are literals. -/
def tokenize (s : List Char) : List Token :=
  tokenizeF s.length s

/-- The original text a token stands for. -/
def tokenText : Token → List Char
  | .lit c => [c]
  | .ph content => '{' :: '{' :: (content ++ ['}', '}'])

/-- What the specification says a token becomes after substitution: literals
survive; a placeholder becomes the string form of the value its trimmed path
resolves to, or stays verbatim when resolution fails. -/
def renderToken (context : Value) : Token → List Char
  | .lit c => [c]
  | .ph content =>
    match getNestedValue context (String.mk (trimChars content)) with
    | .vUndef => '{' :: '{' :: (content ++ ['}', '}'])
    | v => (jsString v).data

/-- The own function-valued properties of `Object.prototype`, which plain
member access `current[key]` reaches through the prototype chain on any
plain object, each paired with the name of the native function it holds
(`constructor` holds the `Object` constructor).  The `__proto__` accessor,
which yields `Object.prototype` itself, is handled separately. -/
def objectProtoFunctions : List (String × String) :=
  [("constructor", "Object"),
   ("__defineGetter__", "__defineGetter__"),
   ("__defineSetter__", "__defineSetter__"),
   ("hasOwnProperty", "hasOwnProperty"),
   ("__lookupGetter__", "__lookupGetter__"),
   ("__lookupSetter__", "__lookupSetter__"),
   ("isPrototypeOf", "isPrototypeOf"),
   ("propertyIsEnumerable", "propertyIsEnumerable"),
   ("toString", "toString"),
   ("valueOf", "valueOf"),
   ("toLocaleString", "toLocaleString")]

/-- A value as the walk of `getNestedValue` can hold it at run time under
faithful JavaScript member access: a data value of the configuration domain,
a native function reached through the prototype chain (carrying its `name`),
or `Object.prototype` itself (as the `__proto__` accessor yields it). -/
inductive JsValue where
  | plain (v : Value)
  | protoFun (name : String)
  | protoObj

/-- What member access on a plain object reaches when the key is no own
property: the `__proto__` accessor yields `Object.prototype`, the own
members of `Object.prototype` are native functions, every other key is
absent (`none`, read as `undefined` by `jsMemberP`). -/
def protoLookup (key : String) : Option JsValue :=
  if key = "__proto__" then some .protoObj
  else (objectProtoFunctions.lookup key).map JsValue.protoFun

/-- Member access `current[key]` for a non-numeric key under the prototype
chain, on the fragment of run-time values the empty-context walk reaches: on
a plain object an own property wins and a missing one falls through to
`Object.prototype`; on `Object.prototype` itself the own members are final,
its prototype being `null` (so `__proto__` there yields `null` and a missing
key `undefined`).  Member access on a native function (whose chain runs
through `Function.prototype`) and on non-object primitives (boxing) lies
outside the modelled fragment, recorded as `none`. -/
def jsMemberP : JsValue → String → Option JsValue
  | .plain (.vObj fields), key =>
    match fields.lookup key with
    | some v => some (.plain v)
    | none => some ((protoLookup key).getD (.plain .vUndef))
  | .protoObj, key =>
    if key = "__proto__" then some (.plain .vNull)
    else some (((objectProtoFunctions.lookup key).map JsValue.protoFun).getD
      (.plain .vUndef))
  | .protoFun _, _ => none
  | .plain _, _ => none

/-- The key-walking loop of `getNestedValue` under faithful member access:
as `nestedGo`, but a missing own property continues through the prototype
chain; an all-digits key still indexes arrays only (`Array.isArray` is false
for every other receiver).  `none` marks a walk that leaves the modelled
fragment. -/
def nestedGoP : JsValue → List String → Option JsValue
  | current, [] => some current
  | .plain .vNull, _ :: _ => some (.plain .vUndef)
  | .plain .vUndef, _ :: _ => some (.plain .vUndef)
  | current, key :: keys =>
    if isDigits key then
      match current with
      | .plain (.vArr elems) =>
        nestedGoP (.plain (elems.getD (digitsToNat key) .vUndef)) keys
      | _ => some (.plain .vUndef)
    else
      match jsMemberP current key with
      | some next => nestedGoP next keys
      | none => none

/-- The source's `getNestedValue(obj, path)` under faithful member access. -/
def getNestedValueP (obj : Value) (path : String) : Option JsValue :=
  nestedGoP (.plain obj) ((splitDots path.data).map String.mk)

/-- The string form `String(v)` of a run-time value: a native function
renders as its V8 source text, `Object.prototype` as a plain object. -/
def jsStringP : JsValue → String
  | .plain v => jsString v
  | .protoFun n => "function " ++ n ++ "() \x7b [native code] \x7d"
  | .protoObj => "[object Object]"

/-- The replacement the callback of `substituteInString` produces for one
matched placeholder: `String(value)` when the resolved value is not
`undefined`, the matched token kept verbatim otherwise. -/
def renderJs (jv : JsValue) (content : List Char) : List Char :=
  match jv with
  | .plain .vUndef => '{' :: '{' :: (content ++ ['}', '}'])
  | v => (jsStringP v).data

/-- The scanning loop of `substituteInString` under faithful member access,
fueled as `substCharsF`; `none` propagates a resolution that left the
modelled fragment. -/
def substCharsPF (context : Value) : Nat → List Char → Option (List Char)
  | 0, s => some s
  | fuel + 1, s =>
    match matchAt s with
    | some content =>
      match getNestedValueP context (String.mk (trimChars content)) with
      | none => none
      | some jv =>
        (substCharsPF context fuel (s.drop (content.length + 4))).map
          fun rest => renderJs jv content ++ rest
    | none =>
      match s with
      | [] => some []
      | c :: rest => (substCharsPF context fuel rest).map fun r => c :: r

/-- The body of `substituteInString` on character lists, under faithful
member access. -/
def substCharsP (context : Value) (s : List Char) : Option (List Char) :=
  substCharsPF context s.length s

/-- The source's `substituteInString(str, context)` under faithful member
access. -/
def substituteInStringP (str : String) (context : Value) : Option String :=
  (substCharsP context str.data).map String.mk

mutual

/-- The source's `substituteVariables(obj, context)` under faithful member
access: `none` when some placeholder's resolution leaves the modelled
fragment. -/
def substituteVariablesP : Value → Value → Option Value
  | .vStr s, context => (substituteInStringP s context).map .vStr
  | .vArr elems, context => (substituteListP elems context).map .vArr
  | .vObj fields, context => (substituteFieldsP fields context).map .vObj
  | v, _ => some v

/-- Element-wise substitution over an array's elements, under faithful
member access. -/
def substituteListP : List Value → Value → Option (List Value)
  | [], _ => some []
  | v :: rest, context =>
    match substituteVariablesP v context, substituteListP rest context with
    | some v2, some rest2 => some (v2 :: rest2)
    | _, _ => none

/-- Value-wise substitution over an object's fields, keys untouched, under
faithful member access. -/
def substituteFieldsP : List (String × Value) → Value → Option (List (String × Value))
  | [], _ => some []
  | (k, v) :: rest, context =>
    match substituteVariablesP v context, substituteFieldsP rest context with
    | some v2, some rest2 => some ((k, v2) :: rest2)
    | _, _ => none

end

/-- The first dot-segment of a placeholder's trimmed content: the key the
walk of `getNestedValue` looks up first. -/
def headKey (content : List Char) : String :=
  ((splitDots (trimChars content)).map String.mk).headD ""

/-- A placeholder content whose resolution against the empty context is
guaranteed to fail: its first key is numeric (the empty object is no array)
or reaches neither an own property (there are none) nor anything on
`Object.prototype`. -/
def protoFreeContent (content : List Char) : Bool :=
  isDigits (headKey content) || (protoLookup (headKey content)).isNone

/-- Every placeholder of a template string has a first key that misses
`Object.prototype`. -/
def protoFreeChars (s : List Char) : Bool :=
  (tokenize s).all fun t =>
    match t with
    | .lit _ => true
    | .ph content => protoFreeContent content

mutual

/-- Every placeholder occurring in any string of a value has a first key
that misses `Object.prototype`. -/
def protoFree : Value → Bool
  | .vStr s => protoFreeChars s.data
  | .vArr elems => protoFreeList elems
  | .vObj fields => protoFreeFields fields
  | _ => true

/-- `protoFree` over an array's elements. -/
def protoFreeList : List Value → Bool
  | [] => true
  | v :: rest => protoFree v && protoFreeList rest

/-- `protoFree` over an object's field values. -/
def protoFreeFields : List (String × Value) → Bool
  | [] => true
  | (_, v) :: rest => protoFree v && protoFreeFields rest

end

/-- The universal result contract of trigger validation and action handlers:
`data` is `undefined` when a handler omits it, `error` is absent
(`undefined`) when omitted. -/
structure ActionResult where
  success : Bool
  data : Value
  error : Option String

/-- The outcome of one dispatch as the engine's inner `try` observes it:
either the handler returned an `ActionResult`, or it threw — carrying the
fault's message, or `none` when a non-`Error` value was thrown. -/
inductive DispatchOutcome where
  | ok (result : ActionResult)
  | fault (message : Option String)

/-- The mutable per-run context of `executeWorkflow`, as declared in
`workflowEngine.ts`. -/
structure WorkflowContext where
  workflowId : String
  userId : String
  triggerData : Value
  «variables» : List (String × Value)
  stepResults : List (String × Value)

/-- The action handlers perform external I/O (network, mail, database), so
the dispatcher's routing to them is modelled by an oracle taking the action
type, the resolved `config`, and the current context. -/
def HandlerOracle : Type :=
  String → Value → WorkflowContext → DispatchOutcome

/-- The `WorkflowContext` as the JavaScript object the engine passes to
`substituteVariables`, fields in declaration order. -/
def contextToValue (context : WorkflowContext) : Value :=
  .vObj [("workflowId", .vStr context.workflowId), ("userId", .vStr context.userId),
    ("triggerData", context.triggerData), ("variables", .vObj context.«variables»),
    ("stepResults", .vObj context.stepResults)]

/-- JavaScript property assignment `m[key] = v` on an object with fields in
insertion order: an existing key keeps its position and gets the new value,
a fresh key is appended. -/
def objSet (fields : List (String × Value)) (key : String) (v : Value) :
    List (String × Value) :=
  if fields.any fun p => p.1 = key then
    fields.map fun p => if p.1 = key then (key, v) else p
  else fields ++ [(key, v)]

/-- A stored workflow as the engine reads it: identity, owner, display name,
and the `configuration` object's `triggers` and `actions` arrays, either of
which may be absent (`none`); the route layer validates them to be arrays
when present. -/
structure Workflow where
  id : String
  userId : String
  name : String
  triggers : Option (List Value)
  actions : Option (List Value)

/-- The observable effects of one run, in order: the initial Execution row
insert, each dispatch of an action (with its index, the resolved action
value, and the outcome), the terminal status update, and any Notification
insert. -/
inductive EngineEvent where
  | createExecution (workflowId : String) (input : Value)
  | dispatched (index : Nat) (action : Value) (outcome : DispatchOutcome)
  | updateExecution (status : String) (error : Option String) (output : Option Value)
  | createNotification (userId : String) (ntype : String) (message : String)
      (workflowId : String) (executionId : String)

/-- Template-literal rendering of a `string | null` parameter. -/
def optStrOrNull : Option String → String
  | some s => s
  | none => "null"

/-- Template-literal rendering of a `string | undefined` field. -/
def optStrOrUndefined : Option String → String
  | some s => s
  | none => "undefined"

/-- The action types the dispatcher's `switch` recognizes. -/
def knownActionTypes : List String :=
  ["email", "webhook", "database", "sms", "notification", "delay"]

/-- The dispatcher `executeAction(action, context)` from
`src/lib/actionHandlers`: destructure `type` and `config` (throwing on a
`null`/`undefined` action), route a recognized type to its handler, and
answer any other type with a declared failure naming the type. -/
def executeAction (handlers : HandlerOracle) (action : Value)
    (context : WorkflowContext) : DispatchOutcome :=
  match action with
  | .vNull => .fault (some "Cannot destructure property type of action as it is null.")
  | .vUndef => .fault (some "Cannot destructure property type of action as it is undefined.")
  | _ =>
    match jsProp action "type" with
    | .vStr t =>
      if t ∈ knownActionTypes then handlers t (jsProp action "config") context
      else
        .ok { success := false, data := .vUndef,
              error := some ("Unknown action type: " ++ t) }
    | tv =>
      .ok { success := false, data := .vUndef,
            error := some ("Unknown action type: " ++ jsString tv) }

/-- The engine's `validateTrigger(trigger, context)`: the four recognized
trigger types validate successfully with the raw trigger data; any other
type yields a declared failure naming the type.  Reading `.type` off a
`null`/`undefined` trigger throws, which the model surfaces as a fault. -/
def validateTrigger (trigger : Value) (context : WorkflowContext) :
    DispatchOutcome :=
  match trigger with
  | .vNull => .fault (some "Cannot read properties of null (reading type)")
  | .vUndef => .fault (some "Cannot read properties of undefined (reading type)")
  | _ =>
    match jsProp trigger "type" with
    | .vStr "webhook" => .ok { success := true, data := context.triggerData, error := none }
    | .vStr "manual" => .ok { success := true, data := context.triggerData, error := none }
    | .vStr "email" => .ok { success := true, data := context.triggerData, error := none }
    | .vStr "schedule" => .ok { success := true, data := context.triggerData, error := none }
    | tv =>
      .ok { success := false, data := .vUndef,
            error := some ("Unknown trigger type: " ++ jsString tv) }

/-- The engine's `updateExecutionStatus`: one update of the Execution row —
always setting `endTime` — followed, for a failed status, by a Notification
insert addressed to the workflow's owner, with the message interpolating the
error passed to the update.  The store is assumed to return the execution
joined with its workflow, as the engine just created the row. -/
def updateExecutionStatus (wf : Workflow) (executionId : String) (status : String)
    (error : Option String) (output : Option Value) : List EngineEvent :=
  EngineEvent.updateExecution status error output ::
    (if status = "failed" then
      [EngineEvent.createNotification wf.userId "workflow_error"
        ("Workflow \"" ++ wf.name ++ "\" failed: " ++ optStrOrNull error)
        wf.id executionId]
    else [])

/-- Result of the trigger loop: all triggers validated (with the grown
context), or the first failing trigger's error, or a thrown fault. -/
inductive TriggerPhase where
  | ok (context : WorkflowContext)
  | invalid (error : Option String) (context : WorkflowContext)
  | thrown (message : Option String) (context : WorkflowContext)

/-- The trigger loop of `executeWorkflow`: validate each trigger in order;
the first failure aborts with that trigger's error; a success records the
trigger data under the key naming the trigger's type. -/
def runTriggers (context : WorkflowContext) : List Value → TriggerPhase
  | [] => .ok context
  | t :: ts =>
    match validateTrigger t context with
    | .fault m => .thrown m context
    | .ok r =>
      if r.success then
        runTriggers
          { context with
              stepResults := objSet context.stepResults
                ("trigger_" ++ jsString (jsProp t "type")) r.data }
          ts
      else .invalid r.error context

/-- Result of the action loop: every action succeeded, or the action at the
given index declared failure (carrying its raw error), or its dispatch threw
(carrying the fault's message); each case carries the context reached and
the dispatch events emitted. -/
inductive ActionPhase where
  | ok (context : WorkflowContext) (events : List EngineEvent)
  | failed (index : Nat) (error : Option String) (context : WorkflowContext)
      (events : List EngineEvent)
  | thrown (index : Nat) (message : Option String) (context : WorkflowContext)
      (events : List EngineEvent)

/-- The action loop of `executeWorkflow`, starting at index `i`: resolve the
action's placeholders against the current context, dispatch it, stop at the
first declared failure or fault, and otherwise record the result under
`action_<i>` in `stepResults` and `action_<i>_result` in `variables`. -/
def runActions (handlers : HandlerOracle) (context : WorkflowContext) (i : Nat) :
    List Value → ActionPhase
  | [] => .ok context []
  | a :: rest =>
    let processed := substituteVariables a (contextToValue context)
    match executeAction handlers processed context with
    | .fault m => .thrown i m context [.dispatched i processed (.fault m)]
    | .ok r =>
      if r.success then
        match runActions handlers
          { context with
            stepResults := objSet context.stepResults ("action_" ++ natRepr i) r.data,
            «variables» := objSet context.«variables» ("action_" ++ natRepr i ++ "_result") r.data }
          (i + 1) rest with
        | .ok c evs => .ok c (.dispatched i processed (.ok r) :: evs)
        | .failed j e c evs => .failed j e c (.dispatched i processed (.ok r) :: evs)
        | .thrown j m c evs => .thrown j m c (.dispatched i processed (.ok r) :: evs)
      else .failed i r.error context [.dispatched i processed (.ok r)]

/-- What `executeWorkflow` gives back to its caller, together with the event
trace of the run and the context reached (the engine's local `context`
variable at return). -/
structure RunOutcome where
  success : Bool
  error : Option String
  data : Option Value
  executionId : String
  events : List EngineEvent
  finalContext : WorkflowContext

/-- The context `executeWorkflow` seeds before any step runs. -/
def initialContext (wf : Workflow) (triggerData : Value) : WorkflowContext :=
  { workflowId := wf.id, userId := wf.userId, triggerData := triggerData,
    «variables» := [("trigger", triggerData)], stepResults := [] }

/-- The triggers the engine iterates: the guard
`configuration.triggers && configuration.triggers.length > 0` skips an
absent or empty array. -/
def triggerListOf (wf : Workflow) : List Value :=
  match wf.triggers with
  | some ts => if 0 < ts.length then ts else []
  | none => []

/-- The actions the engine iterates, under the analogous guard. -/
def actionListOf (wf : Workflow) : List Value :=
  match wf.actions with
  | some acts => if 0 < acts.length then acts else []
  | none => []

/-- The engine's `executeWorkflow(workflow, triggerData)`: create the
Execution row, validate triggers, run actions, and persist exactly one
terminal status — `completed` with the accumulated `stepResults` as output,
or `failed`.  A declared action failure stores the handler's raw error on
the Execution but returns the index-prefixed message; a fault stores and
returns the same index-prefixed message; a trigger validation failure stores
and returns the trigger's error verbatim. -/
def executeWorkflow (handlers : HandlerOracle) (executionId : String)
    (wf : Workflow) (triggerData : Value) : RunOutcome :=
  let context0 := initialContext wf triggerData
  let createEv := EngineEvent.createExecution wf.id triggerData
  match runTriggers context0 (triggerListOf wf) with
  | .invalid err ctx =>
    { success := false, error := err, data := none, executionId := executionId,
      events := createEv :: updateExecutionStatus wf executionId "failed" err none,
      finalContext := ctx }
  | .thrown m ctx =>
    let errorMessage := match m with
      | some msg => msg
      | none => "Unknown workflow error"
    { success := false, error := some errorMessage, data := none,
      executionId := executionId,
      events := createEv ::
        updateExecutionStatus wf executionId "failed" (some errorMessage) none,
      finalContext := ctx }
  | .ok ctx1 =>
    match runActions handlers ctx1 0 (actionListOf wf) with
    | .ok ctx2 evs =>
      { success := true, error := none, data := some (.vObj ctx2.stepResults),
        executionId := executionId,
        events := createEv :: evs ++
          updateExecutionStatus wf executionId "completed" none (some (.vObj ctx2.stepResults)),
        finalContext := ctx2 }
    | .failed i err ctx2 evs =>
      { success := false,
        error := some ("Action " ++ natRepr (i + 1) ++ " failed: " ++ optStrOrUndefined err),
        data := none, executionId := executionId,
        events := createEv :: evs ++ updateExecutionStatus wf executionId "failed" err none,
        finalContext := ctx2 }
    | .thrown i m ctx2 evs =>
      let errorMessage := "Action " ++ natRepr (i + 1) ++ " error: " ++
        (match m with | some msg => msg | none => "Unknown error")
      { success := false, error := some errorMessage, data := none,
        executionId := executionId,
        events := createEv :: evs ++
          updateExecutionStatus wf executionId "failed" (some errorMessage) none,
        finalContext := ctx2 }

/-- The persisted Execution row as the trace's writes leave it; times are
tracked as set/unset flags since wall-clock values carry no claim content. -/
structure ExecutionRecord where
  workflowId : String
  status : String
  startTimeSet : Bool
  endTimeSet : Bool
  input : Value
  output : Option Value
  error : Option String

/-- The row before any write. -/
def initialRecord : ExecutionRecord :=
  { workflowId := "", status := "", startTimeSet := false, endTimeSet := false,
    input := .vUndef, output := none, error := none }

/-- Effect of one event on the Execution row: the insert initializes it as
`running` with `startTime`; the update overwrites status, error and output
and sets `endTime`; other events do not touch the row. -/
def applyEvent (r : ExecutionRecord) : EngineEvent → ExecutionRecord
  | .createExecution wid input =>
    { workflowId := wid, status := "running", startTimeSet := true,
      endTimeSet := false, input := input, output := none, error := none }
  | .updateExecution status error output =>
    { r with status := status, endTimeSet := true, error := error, output := output }
  | _ => r

/-- The Execution row after a whole trace. -/
def finalRecord (events : List EngineEvent) : ExecutionRecord :=
  events.foldl applyEvent initialRecord

/-- Does an event write the Execution row? -/
def isExecutionWrite : EngineEvent → Bool
  | .createExecution _ _ => true
  | .updateExecution _ _ _ => true
  | _ => false

/-- Is an event the terminal status update? -/
def isUpdateEvent : EngineEvent → Bool
  | .updateExecution _ _ _ => true
  | _ => false

/-- The Notification inserts of a trace. -/
def notificationEvents (events : List EngineEvent) : List EngineEvent :=
  events.filter fun e =>
    match e with
    | .createNotification _ _ _ _ _ => true
    | _ => false

/-- Entry preservation between two JavaScript objects: every present entry
keeps its value — growth without overwrite. -/
def mapPreserved (m m' : List (String × Value)) : Prop :=
  ∀ k v, m.lookup k = some v → m'.lookup k = some v

/-- The context an `ActionPhase` carries. -/
def ActionPhase.contextOf : ActionPhase → WorkflowContext
  | .ok c _ => c
  | .failed _ _ c _ => c
  | .thrown _ _ c _ => c

/-- The events an `ActionPhase` carries. -/
def ActionPhase.eventsOf : ActionPhase → List EngineEvent
  | .ok _ evs => evs
  | .failed _ _ _ evs => evs
  | .thrown _ _ _ evs => evs

/-- Trigger data of a small concrete run: one webhook trigger and two
actions, the second of which declares failure. -/
def c6td : Value := .vStr "payload"

/-- First action of the concrete run: a `delay` action with empty config. -/
def c6act0 : Value := .vObj [("type", .vStr "delay"), ("config", .vObj [])]

/-- Second action of the concrete run: an `sms` action with empty config. -/
def c6act1 : Value := .vObj [("type", .vStr "sms"), ("config", .vObj [])]

/-- The workflow of the concrete run. -/
def c6wf : Workflow :=
  { id := "wf-c6", userId := "user-c6", name := "C6 flow",
    triggers := some [.vObj [("type", .vStr "webhook")]],
    actions := some [c6act0, c6act1] }

/-- Handlers for the concrete run: `sms` declares failure, every other type
succeeds with the string datum `ok0`. -/
def c6Handlers : HandlerOracle := fun t _ _ =>
  if t = "sms" then
    .ok { success := false, data := .vUndef, error := some "sms down" }
  else .ok { success := true, data := .vStr "ok0", error := none }

/-- The result the handlers give the first action of the concrete run. -/
def c6res0 : ActionResult :=
  { success := true, data := .vStr "ok0", error := none }

/-- The context the trigger phase of the concrete run reaches. -/
def c6tc : WorkflowContext :=
  { workflowId := "wf-c6", userId := "user-c6", triggerData := c6td,
    «variables» := [("trigger", c6td)],
    stepResults := [("trigger_webhook", c6td)] }

/-- Dropping as many elements as `takeWhile` keeps is exactly `dropWhile`. -/
theorem drop_length_takeWhile (p : Char → Bool) (l : List Char) :
    l.drop (l.takeWhile p).length = l.dropWhile p := by
  induction l with
  | nil => rfl
  | cons a l ih =>
    by_cases hp : p a
    · simp [List.takeWhile_cons, List.dropWhile_cons, hp, ih]
    · simp [List.takeWhile_cons, List.dropWhile_cons, hp]

/-- A successful `matchAt` decomposes the input into the full matched token
followed by the remainder, and the captured content is a nonempty run of
characters other than a closing brace. -/
theorem matchAt_some {s content : List Char} (h : matchAt s = some content) :
    s = '{' :: '{' :: (content ++ '}' :: '}' :: s.drop (content.length + 4)) ∧
      content ≠ [] ∧ ∀ c ∈ content, c ≠ '}' := by
  match s with
  | [] => exact absurd h (by simp [matchAt])
  | [c] => exact absurd h (by simp [matchAt])
  | c :: d :: rest =>
    rw [matchAt] at h
    by_cases hc : c = '{' ∧ d = '{'
    · obtain ⟨rfl, rfl⟩ := hc
      rw [if_pos ⟨rfl, rfl⟩] at h
      set tw := rest.takeWhile fun x => x ≠ '}' with htw
      by_cases he : tw.isEmpty
      · rw [if_pos he] at h; exact absurd h (by simp)
      · rw [if_neg he] at h
        match hd : rest.drop tw.length with
        | [] => rw [hd] at h; exact absurd h (by simp)
        | [e] => rw [hd] at h; exact absurd h (by simp)
        | e :: f :: rest' =>
          rw [hd] at h
          dsimp only at h
          by_cases hef : e = '}' ∧ f = '}'
          · obtain ⟨rfl, rfl⟩ := hef
            rw [if_pos ⟨rfl, rfl⟩] at h
            injection h with h
            subst h
            have hrest : rest = tw ++ '}' :: '}' :: rest' := by
              have hsplit : rest.take tw.length ++ rest.drop tw.length = rest :=
                List.take_append_drop _ _
              have hdw : rest.drop tw.length = rest.dropWhile fun x => x ≠ '}' := by
                rw [htw]; exact drop_length_takeWhile _ _
              have htake : rest.take tw.length = tw := by
                have h2 : tw ++ rest.dropWhile (fun x => x ≠ '}') = rest := by
                  rw [htw]; exact List.takeWhile_append_dropWhile _ _
                rw [hdw] at hsplit
                have hlen : (rest.take tw.length).length = tw.length := by
                  rw [List.length_take]
                  have : tw.length ≤ rest.length := by
                    rw [htw]; exact (List.takeWhile_sublist _).length_le
                  omega
                exact List.append_inj_left (hsplit.trans h2.symm) hlen
              rw [← htake, ← hd]
              exact hsplit.symm
            have hdrop : ('{' :: '{' :: rest).drop (tw.length + 4) = rest' := by
              have : ('{' :: '{' :: rest).drop (tw.length + 4) = rest.drop (tw.length + 2) := by
                simp [List.drop_succ_cons]
              rw [this, hrest]
              calc (tw ++ '}' :: '}' :: rest').drop (tw.length + 2)
                  = ('}' :: '}' :: rest').drop 2 := List.drop_append 2
                _ = rest' := rfl
            refine ⟨?_, ?_, ?_⟩
            · rw [hdrop, hrest]
            · intro hnil
              rw [hnil] at he; exact he rfl
            · intro x hx
              have hx' : x ∈ rest.takeWhile fun x => x ≠ '}' := by rw [← htw]; exact hx
              simpa using List.mem_takeWhile_imp hx'
          · rw [if_neg hef] at h; exact absurd h (by simp)
    · rw [if_neg hc] at h; exact absurd h (by simp)

/-- A match consumes at least the four brace characters, so the remainder is
strictly shorter than the input. -/
theorem matchAt_some_length {s content : List Char} (h : matchAt s = some content) :
    s.length = content.length + 4 + (s.drop (content.length + 4)).length := by
  have hs := (matchAt_some h).1
  calc s.length = ('{' :: '{' :: (content ++ '}' :: '}' :: s.drop (content.length + 4))).length := by
        rw [← hs]
    _ = content.length + 4 + (s.drop (content.length + 4)).length := by
        simp [List.length_append]
        omega

/-- The fueled scanner does not depend on the fuel once it covers the input
length. -/
theorem substCharsF_congr (context : Value) :
    ∀ fuel fuel' (s : List Char), s.length ≤ fuel → s.length ≤ fuel' →
      substCharsF context fuel s = substCharsF context fuel' s := by
  intro fuel
  induction fuel with
  | zero =>
    intro fuel' s hs hs'
    have : s = [] := List.length_eq_zero.mp (Nat.le_zero.mp hs)
    subst this
    cases fuel' <;> rfl
  | succ fuel ih =>
    intro fuel' s hs hs'
    match s with
    | [] => cases fuel' <;> rfl
    | c :: rest =>
      match fuel' with
      | 0 => exact absurd hs' (by simp)
      | fuel'' + 1 =>
        rw [substCharsF, substCharsF]
        cases hm : matchAt (c :: rest) with
        | some content =>
          dsimp only
          have hlen := matchAt_some_length hm
          rw [ih fuel'' ((c :: rest).drop (content.length + 4)) (by simp at hs ⊢; omega)
            (by simp at hs' ⊢; omega)]
        | none =>
          dsimp only
          rw [ih fuel'' rest (by simp at hs; omega) (by simp at hs'; omega)]

/-- The fueled tokenizer does not depend on the fuel once it covers the
input length. -/
theorem tokenizeF_congr :
    ∀ fuel fuel' (s : List Char), s.length ≤ fuel → s.length ≤ fuel' →
      tokenizeF fuel s = tokenizeF fuel' s := by
  intro fuel
  induction fuel with
  | zero =>
    intro fuel' s hs hs'
    have : s = [] := List.length_eq_zero.mp (Nat.le_zero.mp hs)
    subst this
    cases fuel' <;> rfl
  | succ fuel ih =>
    intro fuel' s hs hs'
    match s with
    | [] => cases fuel' <;> rfl
    | c :: rest =>
      match fuel' with
      | 0 => exact absurd hs' (by simp)
      | fuel'' + 1 =>
        rw [tokenizeF, tokenizeF]
        cases hm : matchAt (c :: rest) with
        | some content =>
          dsimp only
          have hlen := matchAt_some_length hm
          rw [ih fuel'' ((c :: rest).drop (content.length + 4)) (by simp at hs ⊢; omega)
            (by simp at hs' ⊢; omega)]
        | none =>
          dsimp only
          rw [ih fuel'' rest (by simp at hs; omega) (by simp at hs'; omega)]

/-- Unfolding of `tokenize` when the regex matches at the head. -/
theorem tokenize_match {s content : List Char} (hm : matchAt s = some content) :
    tokenize s = .ph content :: tokenize (s.drop (content.length + 4)) := by
  have hlen := matchAt_some_length hm
  match s, hm with
  | c :: rest, hm =>
    rw [tokenize, tokenize, List.length_cons, tokenizeF, hm]
    dsimp only
    rw [tokenizeF_congr rest.length ((c :: rest).drop (content.length + 4)).length
      ((c :: rest).drop (content.length + 4)) (by simp at hlen ⊢; try omega) (Nat.le_refl _)]

/-- Unfolding of `tokenize` on the empty input. -/
theorem tokenize_nil : tokenize [] = [] := rfl

/-- Unfolding of `tokenize` when the regex does not match at the head. -/
theorem tokenize_cons {c : Char} {rest : List Char}
    (hm : matchAt (c :: rest) = none) :
    tokenize (c :: rest) = .lit c :: tokenize rest := by
  rw [tokenize, tokenize, List.length_cons, tokenizeF, hm]

/-- Unfolding of `substChars` when the regex matches at the head. -/
theorem substChars_match {context : Value} {s content : List Char}
    (hm : matchAt s = some content) :
    substChars context s =
      renderToken context (.ph content) ++ substChars context (s.drop (content.length + 4)) := by
  have hlen := matchAt_some_length hm
  match s, hm with
  | c :: rest, hm =>
    rw [substChars, substChars, List.length_cons, substCharsF, hm]
    dsimp only
    rw [substCharsF_congr context rest.length ((c :: rest).drop (content.length + 4)).length
      ((c :: rest).drop (content.length + 4)) (by simp at hlen ⊢; try omega) (Nat.le_refl _)]
    rfl

/-- Unfolding of `substChars` on the empty input. -/
theorem substChars_nil (context : Value) : substChars context [] = [] := rfl

/-- Unfolding of `substChars` when the regex does not match at the head. -/
theorem substChars_cons {context : Value} {c : Char} {rest : List Char}
    (hm : matchAt (c :: rest) = none) :
    substChars context (c :: rest) = c :: substChars context rest := by
  rw [substChars, substChars, List.length_cons, substCharsF, hm]

/-- The tokens of a template string spell the string back out: tokenization
partitions the input into non-overlapping pieces covering all of it. -/
theorem tokenize_flatMap_text (s : List Char) : (tokenize s).flatMap tokenText = s := by
  have main : ∀ n (s : List Char), s.length ≤ n → (tokenize s).flatMap tokenText = s := by
    intro n
    induction n with
    | zero =>
      intro s hs
      have : s = [] := List.length_eq_zero.mp (Nat.le_zero.mp hs)
      subst this; rfl
    | succ n ih =>
      intro s hs
      cases hm : matchAt s with
      | some content =>
        have hlen := matchAt_some_length hm
        rw [tokenize_match hm, List.flatMap_cons,
          ih (s.drop (content.length + 4)) (by omega)]
        conv_rhs => rw [(matchAt_some hm).1]
        simp only [tokenText, List.cons_append, List.append_assoc]
        rfl
      | none =>
        match s with
        | [] => rfl
        | c :: rest =>
          rw [tokenize_cons hm, List.flatMap_cons, ih rest (by simp at hs; omega)]
          rfl
  exact main s.length s (Nat.le_refl _)

/-- The scanner of `substituteInString` agrees with the specification-level
description: the output is the concatenation of the rendering of each token
of the input. -/
theorem substChars_eq_flatMap (context : Value) (s : List Char) :
    substChars context s = (tokenize s).flatMap (renderToken context) := by
  have main : ∀ n (s : List Char), s.length ≤ n →
      substChars context s = (tokenize s).flatMap (renderToken context) := by
    intro n
    induction n with
    | zero =>
      intro s hs
      have : s = [] := List.length_eq_zero.mp (Nat.le_zero.mp hs)
      subst this; rfl
    | succ n ih =>
      intro s hs
      cases hm : matchAt s with
      | some content =>
        have hlen := matchAt_some_length hm
        rw [substChars_match hm, tokenize_match hm, List.flatMap_cons,
          ih (s.drop (content.length + 4)) (by omega)]
      | none =>
        match s with
        | [] => rfl
        | c :: rest =>
          rw [substChars_cons hm, tokenize_cons hm, List.flatMap_cons,
            ih rest (by simp at hs; omega)]
          rfl
  exact main s.length s (Nat.le_refl _)

/-- Every placeholder token produced by tokenization has nonempty content
free of closing braces, as the specification's pattern requires. -/
theorem tokenize_ph_wf (s : List Char) :
    ∀ t ∈ tokenize s, ∀ content, t = .ph content →
      content ≠ [] ∧ ∀ c ∈ content, c ≠ '}' := by
  have main : ∀ n (s : List Char), s.length ≤ n →
      ∀ t ∈ tokenize s, ∀ content, t = .ph content →
        content ≠ [] ∧ ∀ c ∈ content, c ≠ '}' := by
    intro n
    induction n with
    | zero =>
      intro s hs
      have : s = [] := List.length_eq_zero.mp (Nat.le_zero.mp hs)
      subst this
      intro t ht
      exact absurd ht (by simp [tokenize_nil])
    | succ n ih =>
      intro s hs
      cases hm : matchAt s with
      | some content =>
        have hlen := matchAt_some_length hm
        rw [tokenize_match hm]
        intro t ht ct hc
        rcases List.mem_cons.mp ht with rfl | ht'
        · cases hc
          exact ⟨(matchAt_some hm).2.1, (matchAt_some hm).2.2⟩
        · exact ih (s.drop (content.length + 4)) (by omega) t ht' ct hc
      | none =>
        match s with
        | [] => intro t ht; exact absurd ht (by simp [tokenize_nil])
        | c :: rest =>
          rw [tokenize_cons hm]
          intro t ht ct hc
          rcases List.mem_cons.mp ht with rfl | ht'
          · cases hc
          · exact ih rest (by simp at hs; omega) t ht' ct hc
  exact main s.length s (Nat.le_refl _) 

/-- Splitting at dots always produces at least one segment. -/
theorem splitDots_ne_nil (cs : List Char) : splitDots cs ≠ [] := by
  match cs with
  | [] => simp [splitDots]
  | c :: rest =>
    rw [splitDots]
    by_cases hc : c = '.'
    · simp [hc]
    · simp only [hc, if_false]
      match splitDots rest with
      | [] => simp
      | seg :: segs => simp

/-- Walking any keys from `undefined` stays `undefined`, also under faithful
member access. -/
theorem nestedGoP_undef (keys : List String) :
    nestedGoP (.plain .vUndef) keys = some (.plain .vUndef) := by
  cases keys <;> rfl

/-- Walking from the empty object fails when the first key is numeric or
misses `Object.prototype`. -/
theorem nestedGoP_emptyObj {key : String} {rest : List String}
    (h : (isDigits key || (protoLookup key).isNone) = true) :
    nestedGoP (.plain (.vObj [])) (key :: rest) = some (.plain .vUndef) := by
  have step : nestedGoP (.plain (.vObj [])) (key :: rest) =
      if isDigits key then some (.plain .vUndef)
      else
        match jsMemberP (.plain (.vObj [])) key with
        | some next => nestedGoP next rest
        | none => none := rfl
  rw [step]
  by_cases hd : isDigits key
  · rw [if_pos hd]
  · rw [if_neg hd]
    have hp : protoLookup key = none := by
      have h2 : isDigits key = true ∨ (protoLookup key).isNone = true := by
        simpa using h
      rcases h2 with h1 | h1
      · exact absurd h1 hd
      · exact Option.isNone_iff_eq_none.mp h1
    have hm : jsMemberP (.plain (.vObj [])) key = some (.plain .vUndef) := by
      show some ((protoLookup key).getD (.plain .vUndef)) = some (.plain .vUndef)
      rw [hp]
      rfl
    rw [hm]
    exact nestedGoP_undef rest

/-- Resolution of a placeholder's trimmed content against the empty context
fails whenever its first key misses `Object.prototype`. -/
theorem getNestedValueP_emptyObj {content : List Char}
    (h : protoFreeContent content = true) :
    getNestedValueP (.vObj []) (String.mk (trimChars content)) =
      some (.plain .vUndef) := by
  unfold getNestedValueP
  show nestedGoP (.plain (.vObj []))
    ((splitDots (trimChars content)).map String.mk) = some (.plain .vUndef)
  match hsd : splitDots (trimChars content) with
  | [] => exact absurd hsd (splitDots_ne_nil _)
  | seg :: segs =>
    have hk : headKey content = String.mk seg := by
      unfold headKey
      rw [hsd]
      rfl
    unfold protoFreeContent at h
    rw [hk] at h
    rw [List.map_cons]
    exact nestedGoP_emptyObj h

/-- The fueled faithful scanner does not depend on the fuel once it covers
the input length. -/
theorem substCharsPF_congr (context : Value) :
    ∀ fuel fuel' (s : List Char), s.length ≤ fuel → s.length ≤ fuel' →
      substCharsPF context fuel s = substCharsPF context fuel' s := by
  intro fuel
  induction fuel with
  | zero =>
    intro fuel' s hs hs'
    have : s = [] := List.length_eq_zero.mp (Nat.le_zero.mp hs)
    subst this
    cases fuel' <;> rfl
  | succ fuel ih =>
    intro fuel' s hs hs'
    match s with
    | [] => cases fuel' <;> rfl
    | c :: rest =>
      match fuel' with
      | 0 => exact absurd hs' (by simp)
      | fuel'' + 1 =>
        rw [substCharsPF, substCharsPF]
        cases hm : matchAt (c :: rest) with
        | some content =>
          dsimp only
          have hlen := matchAt_some_length hm
          rw [ih fuel'' ((c :: rest).drop (content.length + 4)) (by simp at hs ⊢; omega)
            (by simp at hs' ⊢; omega)]
        | none =>
          dsimp only
          rw [ih fuel'' rest (by simp at hs; omega) (by simp at hs'; omega)]

/-- Unfolding of `substCharsP` when the regex matches at the head. -/
theorem substCharsP_match {context : Value} {s content : List Char}
    (hm : matchAt s = some content) :
    substCharsP context s =
      match getNestedValueP context (String.mk (trimChars content)) with
      | none => none
      | some jv =>
        (substCharsP context (s.drop (content.length + 4))).map
          fun rest => renderJs jv content ++ rest := by
  have hlen := matchAt_some_length hm
  match s, hm with
  | c :: rest, hm =>
    rw [substCharsP, substCharsP, List.length_cons, substCharsPF, hm]
    dsimp only
    rw [substCharsPF_congr context rest.length ((c :: rest).drop (content.length + 4)).length
      ((c :: rest).drop (content.length + 4)) (by simp at hlen ⊢; try omega) (Nat.le_refl _)]

/-- Unfolding of `substCharsP` on the empty input. -/
theorem substCharsP_nil (context : Value) : substCharsP context [] = some [] := rfl

/-- Unfolding of `substCharsP` when the regex does not match at the head. -/
theorem substCharsP_cons {context : Value} {c : Char} {rest : List Char}
    (hm : matchAt (c :: rest) = none) :
    substCharsP context (c :: rest) = (substCharsP context rest).map fun r => c :: r := by
  rw [substCharsP, substCharsP, List.length_cons, substCharsPF, hm]

/-- String substitution against the empty context under faithful member
access is the identity whenever every placeholder's first key misses
`Object.prototype`. -/
theorem substCharsP_emptyObj {s : List Char} (h : protoFreeChars s = true) :
    substCharsP (.vObj []) s = some s := by
  have main : ∀ n (s : List Char), s.length ≤ n → protoFreeChars s = true →
      substCharsP (.vObj []) s = some s := by
    intro n
    induction n with
    | zero =>
      intro s hs _
      have : s = [] := List.length_eq_zero.mp (Nat.le_zero.mp hs)
      subst this; rfl
    | succ n ih =>
      intro s hs hfree
      cases hm : matchAt s with
      | some content =>
        have hlen := matchAt_some_length hm
        have hfree2 : protoFreeContent content = true ∧
            protoFreeChars (s.drop (content.length + 4)) = true := by
          unfold protoFreeChars at hfree ⊢
          rw [tokenize_match hm, List.all_cons] at hfree
          simp only [Bool.and_eq_true] at hfree
          exact ⟨hfree.1, hfree.2⟩
        rw [substCharsP_match hm, getNestedValueP_emptyObj hfree2.1]
        dsimp only
        rw [ih (s.drop (content.length + 4)) (by omega) hfree2.2]
        refine congrArg some ?_
        conv_rhs => rw [(matchAt_some hm).1]
        simp only [renderJs, List.cons_append, List.append_assoc]
        rfl
      | none =>
        match s with
        | [] => rfl
        | c :: rest =>
          have hfree2 : protoFreeChars rest = true := by
            unfold protoFreeChars at hfree ⊢
            rw [tokenize_cons hm, List.all_cons] at hfree
            simp only [Bool.and_eq_true] at hfree
            exact hfree.2
          rw [substCharsP_cons hm, ih rest (by simp at hs; omega) hfree2]
          rfl
  exact main s.length s (Nat.le_refl _) h

/-- An induction principle for `Value` that threads through the nested
lists of array elements and object fields. -/
theorem Value.inductionOn (P : Value → Prop) (Q : List Value → Prop)
    (R : List (String × Value) → Prop)
    (hundef : P .vUndef) (hnull : P .vNull) (hbool : ∀ b, P (.vBool b))
    (hnum : ∀ n, P (.vNum n)) (hstr : ∀ s, P (.vStr s))
    (harr : ∀ elems, Q elems → P (.vArr elems))
    (hobj : ∀ fields, R fields → P (.vObj fields))
    (hqnil : Q []) (hqcons : ∀ v rest, P v → Q rest → Q (v :: rest))
    (hrnil : R []) (hrcons : ∀ k v rest, P v → R rest → R ((k, v) :: rest)) :
    ∀ v, P v := by
  have main : ∀ n, (∀ v : Value, sizeOf v ≤ n → P v) ∧
      (∀ l : List Value, sizeOf l ≤ n → Q l) ∧
      (∀ l : List (String × Value), sizeOf l ≤ n → R l) := by
    intro n
    induction n with
    | zero =>
      refine ⟨fun v hv => ?_, fun l hl => ?_, fun l hl => ?_⟩
      · cases v <;> simp at hv
      · cases l <;> simp at hl
      · cases l <;> simp at hl
    | succ n ih =>
      obtain ⟨ihv, ihq, ihr⟩ := ih
      refine ⟨fun v hv => ?_, fun l hl => ?_, fun l hl => ?_⟩
      · cases v with
        | vUndef => exact hundef
        | vNull => exact hnull
        | vBool b => exact hbool b
        | vNum m => exact hnum m
        | vStr s => exact hstr s
        | vArr elems =>
          refine harr elems (ihq elems ?_)
          simp at hv; omega
        | vObj fields =>
          refine hobj fields (ihr fields ?_)
          simp at hv; omega
      · cases l with
        | nil => exact hqnil
        | cons v rest =>
          simp at hl
          exact hqcons v rest (ihv v (by omega)) (ihq rest (by omega))
      · cases l with
        | nil => exact hrnil
        | cons p rest =>
          obtain ⟨k, v⟩ := p
          simp at hl
          exact hrcons k v rest (ihv v (by omega)) (ihr rest (by omega))
  intro v
  exact ((main (sizeOf v)).1 v) (Nat.le_refl _)

/-- Substituting with the empty context under faithful member access is the
identity on every value whose placeholders all have first keys missing
`Object.prototype`. -/
theorem substituteVariablesP_emptyObj :
    ∀ v, protoFree v = true → substituteVariablesP v (.vObj []) = some v := by
  refine Value.inductionOn
    (fun v => protoFree v = true → substituteVariablesP v (.vObj []) = some v)
    (fun l => protoFreeList l = true → substituteListP l (.vObj []) = some l)
    (fun l => protoFreeFields l = true → substituteFieldsP l (.vObj []) = some l)
    (fun _ => rfl) (fun _ => rfl) (fun b _ => rfl) (fun n _ => rfl)
    ?_ ?_ ?_ (fun _ => rfl) ?_ (fun _ => rfl) ?_
  · intro s h
    have h2 : protoFreeChars s.data = true := h
    rw [substituteVariablesP, substituteInStringP, substCharsP_emptyObj h2]
    rfl
  · intro elems hq h
    have h2 : protoFreeList elems = true := h
    rw [substituteVariablesP, hq h2]
    rfl
  · intro fields hr h
    have h2 : protoFreeFields fields = true := h
    rw [substituteVariablesP, hr h2]
    rfl
  · intro v rest hv hrest h
    have h2 : (protoFree v && protoFreeList rest) = true := h
    simp only [Bool.and_eq_true] at h2
    rw [substituteListP, hv h2.1, hrest h2.2]
  · intro k v rest hv hrest h
    have h2 : (protoFree v && protoFreeFields rest) = true := h
    simp only [Bool.and_eq_true] at h2
    rw [substituteFieldsP, hv h2.1, hrest h2.2]

/-- Array elements are substituted element-wise, in order. -/
theorem substituteList_eq_map (l : List Value) (context : Value) :
    substituteList l context = l.map fun v => substituteVariables v context := by
  induction l with
  | nil => rfl
  | cons v rest ih => rw [substituteList, ih, List.map_cons]

/-- Object fields are substituted value-wise, keys and order untouched. -/
theorem substituteFields_eq_map (l : List (String × Value)) (context : Value) :
    substituteFields l context = l.map fun p => (p.1, substituteVariables p.2 context) := by
  induction l with
  | nil => rfl
  | cons p rest ih =>
    obtain ⟨k, v⟩ := p
    rw [substituteFields, ih, List.map_cons]

/-- The fueled digit printer does not depend on the fuel once it exceeds the
number. -/
theorem natDigitsF_congr :
    ∀ fuel fuel' n, n < fuel → n < fuel' → natDigitsF fuel n = natDigitsF fuel' n := by
  intro fuel
  induction fuel with
  | zero => intro fuel' n h; omega
  | succ fuel ih =>
    intro fuel' n h h'
    match fuel' with
    | 0 => omega
    | fuel'' + 1 =>
      rw [natDigitsF, natDigitsF]
      by_cases h10 : n < 10
      · rw [if_pos h10, if_pos h10]
      · rw [if_neg h10, if_neg h10, ih fuel'' (n / 10) (by omega) (by omega)]

/-- Reading the decimal digits of `n` back with the digit-string evaluator
recovers `n`, with an arbitrary accumulator shifted in. -/
theorem natDigitsF_foldl :
    ∀ fuel n acc, n < fuel →
      (natDigitsF fuel n).foldl (fun m c => m * 10 + (c.toNat - 48)) acc =
        acc * 10 ^ (natDigitsF fuel n).length + n := by
  intro fuel
  induction fuel with
  | zero => intro n acc h; omega
  | succ fuel ih =>
    intro n acc h
    rw [natDigitsF]
    by_cases h10 : n < 10
    · rw [if_pos h10]
      have hc : (Char.ofNat (48 + n)).toNat = 48 + n := by
        interval_cases n <;> decide
      simp [hc]
    · rw [if_neg h10]
      rw [List.foldl_append, ih (n / 10) acc (by omega)]
      have hr : n % 10 < 10 := Nat.mod_lt _ (by omega)
      have hc : (Char.ofNat (48 + n % 10)).toNat = 48 + n % 10 := by
        set r := n % 10 with hrr
        interval_cases r <;> decide
      simp only [List.foldl_cons, List.foldl_nil, List.length_append, List.length_cons,
        List.length_nil, hc]
      have : 48 + n % 10 - 48 = n % 10 := by omega
      rw [this, pow_succ]
      have hdm : 10 * (n / 10) + n % 10 = n := Nat.div_add_mod n 10
      ring_nf
      nlinarith [hdm]

/-- Decimal printing followed by `parseInt`-style reading is the identity. -/
theorem digitsToNat_natRepr (n : Nat) : digitsToNat (natRepr n) = n := by
  have := natDigitsF_foldl (n + 1) n 0 (by omega)
  simpa [digitsToNat, natRepr, natDigits] using this

/-- Decimal printing of naturals is injective. -/
theorem natRepr_inj {a b : Nat} (h : natRepr a = natRepr b) : a = b := by
  have ha := digitsToNat_natRepr a
  have hb := digitsToNat_natRepr b
  rw [← ha, ← hb, h]

/-- Strings with the same character data are equal. -/
theorem string_data_eq {a b : String} (h : a.data = b.data) : a = b := by
  cases a with
  | mk da =>
    cases b with
    | mk db =>
      simp only at h
      exact congrArg String.mk h

/-- Appending to a fixed string on the left is injective. -/
theorem string_append_left_cancel {s a b : String} (h : s ++ a = s ++ b) : a = b := by
  have hd : (s ++ a).data = (s ++ b).data := congrArg String.data h
  rw [String.data_append, String.data_append] at hd
  exact string_data_eq (List.append_cancel_left hd)

/-- Step-result keys for distinct action indexes are distinct. -/
theorem actionKey_inj {i j : Nat} (h : "action_" ++ natRepr i = "action_" ++ natRepr j) :
    i = j :=
  natRepr_inj (string_append_left_cancel h)

/-- Variable keys for distinct action indexes are distinct. -/
theorem actionVarKey_inj {i j : Nat}
    (h : "action_" ++ natRepr i ++ "_result" = "action_" ++ natRepr j ++ "_result") :
    i = j := by
  have hd := congrArg String.data h
  simp only [String.data_append, List.append_assoc] at hd
  have h1 := List.append_cancel_left hd
  have h2 := List.append_cancel_right h1
  exact natRepr_inj (string_data_eq h2)

/-- Mapping a function that fixes every element is the identity. -/
theorem map_id_of_fix {α : Type} (f : α → α) (l : List α) (h : ∀ x ∈ l, f x = x) :
    l.map f = l := by
  induction l with
  | nil => rfl
  | cons a rest ih =>
    rw [List.map_cons, h a (by simp), ih fun x hx => h x (by simp [hx])]

/-- Assigning a key not present appends the entry. -/
theorem objSet_fresh {m : List (String × Value)} {key : String} (v : Value)
    (h : ∀ p ∈ m, p.1 ≠ key) : objSet m key v = m ++ [(key, v)] := by
  have hany : (m.any fun p => p.1 = key) = false := by
    rw [List.any_eq_false]
    intro p hp
    simpa using h p hp
  unfold objSet
  rw [hany]
  rfl

/-- A present entry stays visible after appending on the right. -/
theorem lookup_append_left {m l : List (String × Value)} {key : String} {v : Value}
    (h : m.lookup key = some v) : (m ++ l).lookup key = some v := by
  induction m with
  | nil => simp [List.lookup] at h
  | cons p rest ih =>
    obtain ⟨k, w⟩ := p
    simp only [List.cons_append, List.lookup] at h ⊢
    cases hbeq : (key == k)
    · simp only [hbeq] at h ⊢
      exact ih h
    · simp only [hbeq] at h ⊢
      exact h

/-- Appending entries preserves every present entry. -/
theorem mapPreserved_append (m l : List (String × Value)) :
    mapPreserved m (m ++ l) :=
  fun _ _ h => lookup_append_left h

/-- Entry preservation is reflexive. -/
theorem mapPreserved_refl (m : List (String × Value)) : mapPreserved m m :=
  fun _ _ h => h

/-- Entry preservation is transitive. -/
theorem mapPreserved_trans {a b c : List (String × Value)}
    (h1 : mapPreserved a b) (h2 : mapPreserved b c) : mapPreserved a c :=
  fun k v h => h2 k v (h1 k v h)

/-- Writing a value equal to every stored value either leaves the object
unchanged or appends a fresh entry; in both cases entries are preserved. -/
theorem objSet_of_all_eq {m : List (String × Value)} (key : String) {v : Value}
    (hall : ∀ p ∈ m, p.2 = v) :
    objSet m key v = m ∨ objSet m key v = m ++ [(key, v)] := by
  unfold objSet
  by_cases hany : (m.any fun p => p.1 = key) = true
  · left
    rw [if_pos hany]
    apply map_id_of_fix
    intro p hp
    obtain ⟨pk, pv⟩ := p
    by_cases hpk : pk = key
    · have hv : pv = v := hall (pk, pv) hp
      simp [hpk, hv]
    · simp [hpk]
  · right
    rw [if_neg hany]

/-- Every event the action loop emits is a dispatch event. -/
theorem runActions_events_dispatched (handlers : HandlerOracle) :
    ∀ (acts : List Value) (ctx : WorkflowContext) (i : Nat),
      ∀ e ∈ (runActions handlers ctx i acts).eventsOf,
        ∃ idx a o, e = .dispatched idx a o := by
  intro acts
  induction acts with
  | nil => intro ctx i e he; simp [runActions, ActionPhase.eventsOf] at he
  | cons a rest ih =>
    intro ctx i e he
    simp only [runActions] at he
    cases hd : executeAction handlers (substituteVariables a (contextToValue ctx)) ctx with
    | fault m =>
      rw [hd] at he
      dsimp only at he
      simp only [ActionPhase.eventsOf] at he
      rcases List.mem_singleton.mp he with rfl
      exact ⟨_, _, _, rfl⟩
    | ok r =>
      rw [hd] at he
      dsimp only at he
      by_cases hs : r.success
      · rw [if_pos hs] at he
        cases hrec : runActions handlers
            { ctx with
              stepResults := objSet ctx.stepResults ("action_" ++ natRepr i) r.data,
              «variables» := objSet ctx.«variables» ("action_" ++ natRepr i ++ "_result") r.data }
            (i + 1) rest with
        | ok c evs =>
          rw [hrec] at he
          simp only [ActionPhase.eventsOf] at he
          rcases List.mem_cons.mp he with rfl | he'
          · exact ⟨_, _, _, rfl⟩
          · have := ih _ (i + 1) e (by rw [hrec]; exact he')
            exact this
        | failed j er c evs =>
          rw [hrec] at he
          simp only [ActionPhase.eventsOf] at he
          rcases List.mem_cons.mp he with rfl | he'
          · exact ⟨_, _, _, rfl⟩
          · exact ih _ (i + 1) e (by rw [hrec]; exact he')
        | thrown j m c evs =>
          rw [hrec] at he
          simp only [ActionPhase.eventsOf] at he
          rcases List.mem_cons.mp he with rfl | he'
          · exact ⟨_, _, _, rfl⟩
          · exact ih _ (i + 1) e (by rw [hrec]; exact he')
      · rw [if_neg hs] at he
        simp only [ActionPhase.eventsOf] at he
        rcases List.mem_singleton.mp he with rfl
        exact ⟨_, _, _, rfl⟩

/-- Unfolding of the action loop on a nonempty list. -/
theorem runActions_cons (handlers : HandlerOracle) (ctx : WorkflowContext) (i : Nat)
    (a : Value) (rest : List Value) :
    runActions handlers ctx i (a :: rest) =
      match executeAction handlers (substituteVariables a (contextToValue ctx)) ctx with
      | .fault m => .thrown i m ctx
          [.dispatched i (substituteVariables a (contextToValue ctx)) (.fault m)]
      | .ok r =>
        if r.success then
          match runActions handlers
            { ctx with
              stepResults := objSet ctx.stepResults ("action_" ++ natRepr i) r.data,
              «variables» := objSet ctx.«variables» ("action_" ++ natRepr i ++ "_result") r.data }
            (i + 1) rest with
          | .ok c evs => .ok c
              (.dispatched i (substituteVariables a (contextToValue ctx)) (.ok r) :: evs)
          | .failed j e c evs => .failed j e c
              (.dispatched i (substituteVariables a (contextToValue ctx)) (.ok r) :: evs)
          | .thrown j m c evs => .thrown j m c
              (.dispatched i (substituteVariables a (contextToValue ctx)) (.ok r) :: evs)
        else .failed i r.error ctx
          [.dispatched i (substituteVariables a (contextToValue ctx)) (.ok r)] := rfl

/-- Composing the action loop across an append when the first part runs
clean: the second part continues from the reached context and index, with
the first part's events in front. -/
theorem runActions_append_ok {handlers : HandlerOracle} :
    ∀ (l1 : List Value) {ctx : WorkflowContext} {i : Nat} {c : WorkflowContext}
      {evs : List EngineEvent}, runActions handlers ctx i l1 = .ok c evs →
      ∀ l2, runActions handlers ctx i (l1 ++ l2) =
        match runActions handlers c (i + l1.length) l2 with
        | .ok c' evs' => .ok c' (evs ++ evs')
        | .failed j e c' evs' => .failed j e c' (evs ++ evs')
        | .thrown j m c' evs' => .thrown j m c' (evs ++ evs') := by
  intro l1
  induction l1 with
  | nil =>
    intro ctx i c evs h l2
    rw [runActions] at h
    cases h
    simp only [List.nil_append, List.length_nil, Nat.add_zero]
    cases hx : runActions handlers ctx i l2 <;> simp [hx]
  | cons a rest ih =>
    intro ctx i c evs h l2
    rw [runActions_cons] at h
    rw [List.cons_append, runActions_cons]
    cases hd : executeAction handlers (substituteVariables a (contextToValue ctx)) ctx with
    | fault m => rw [hd] at h; exact absurd h (by simp)
    | ok r =>
      rw [hd] at h
      dsimp only at h
      dsimp only
      by_cases hs : r.success
      · rw [if_pos hs] at h ⊢
        cases hrec : runActions handlers
            { ctx with
              stepResults := objSet ctx.stepResults ("action_" ++ natRepr i) r.data,
              «variables» := objSet ctx.«variables» ("action_" ++ natRepr i ++ "_result") r.data }
            (i + 1) rest with
        | ok c2 evs2 =>
          rw [hrec] at h
          injection h with h1 h2
          subst h1
          rw [ih hrec l2]
          subst h2
          have hidx : i + 1 + rest.length = i + (rest.length + 1) := by omega
          rw [hidx]
          cases hx : runActions handlers c2 (i + (rest.length + 1)) l2 <;> simp [hx]
        | failed j e c2 evs2 => rw [hrec] at h; exact absurd h (by simp)
        | thrown j m c2 evs2 => rw [hrec] at h; exact absurd h (by simp)
      · rw [if_neg hs] at h
        exact absurd h (by simp)

/-- A failure in the first part of an appended action list is the failure of
the whole list. -/
theorem runActions_append_failed {handlers : HandlerOracle} :
    ∀ (l1 : List Value) {ctx : WorkflowContext} {i j : Nat} {e : Option String}
      {c : WorkflowContext} {evs : List EngineEvent},
      runActions handlers ctx i l1 = .failed j e c evs →
      ∀ l2, runActions handlers ctx i (l1 ++ l2) = .failed j e c evs := by
  intro l1
  induction l1 with
  | nil =>
    intro ctx i j e c evs h l2
    rw [runActions] at h
    exact absurd h (by simp)
  | cons a rest ih =>
    intro ctx i j e c evs h l2
    rw [runActions_cons] at h
    rw [List.cons_append, runActions_cons]
    cases hd : executeAction handlers (substituteVariables a (contextToValue ctx)) ctx with
    | fault m => rw [hd] at h; exact absurd h (by simp)
    | ok r =>
      rw [hd] at h
      dsimp only at h
      dsimp only
      by_cases hs : r.success
      · rw [if_pos hs] at h ⊢
        cases hrec : runActions handlers
            { ctx with
              stepResults := objSet ctx.stepResults ("action_" ++ natRepr i) r.data,
              «variables» := objSet ctx.«variables» ("action_" ++ natRepr i ++ "_result") r.data }
            (i + 1) rest with
        | ok c2 evs2 => rw [hrec] at h; exact absurd h (by simp)
        | failed j2 e2 c2 evs2 =>
          rw [hrec] at h
          injection h with h1 h2 h3 h4
          subst h1; subst h2; subst h3; subst h4
          rw [ih hrec l2]
        | thrown j2 m2 c2 evs2 => rw [hrec] at h; exact absurd h (by simp)
      · rw [if_neg hs] at h ⊢
        exact h
    
/-- A fault in the first part of an appended action list is the fault of the
whole list. -/
theorem runActions_append_thrown {handlers : HandlerOracle} :
    ∀ (l1 : List Value) {ctx : WorkflowContext} {i j : Nat} {m : Option String}
      {c : WorkflowContext} {evs : List EngineEvent},
      runActions handlers ctx i l1 = .thrown j m c evs →
      ∀ l2, runActions handlers ctx i (l1 ++ l2) = .thrown j m c evs := by
  intro l1
  induction l1 with
  | nil =>
    intro ctx i j m c evs h l2
    rw [runActions] at h
    exact absurd h (by simp)
  | cons a rest ih =>
    intro ctx i j m c evs h l2
    rw [runActions_cons] at h
    rw [List.cons_append, runActions_cons]
    cases hd : executeAction handlers (substituteVariables a (contextToValue ctx)) ctx with
    | fault m2 =>
      rw [hd] at h
      dsimp only at h
      injection h with h1 h2 h3 h4
      subst h1; subst h2; subst h3; subst h4
      dsimp only
    | ok r =>
      rw [hd] at h
      dsimp only at h
      dsimp only
      by_cases hs : r.success
      · rw [if_pos hs] at h ⊢
        cases hrec : runActions handlers
            { ctx with
              stepResults := objSet ctx.stepResults ("action_" ++ natRepr i) r.data,
              «variables» := objSet ctx.«variables» ("action_" ++ natRepr i ++ "_result") r.data }
            (i + 1) rest with
        | ok c2 evs2 => rw [hrec] at h; exact absurd h (by simp)
        | failed j2 e2 c2 evs2 => rw [hrec] at h; exact absurd h (by simp)
        | thrown j2 m2 c2 evs2 =>
          rw [hrec] at h
          injection h with h1 h2 h3 h4
          subst h1; subst h2; subst h3; subst h4
          rw [ih hrec l2]
      · rw [if_neg hs] at h
        exact absurd h (by simp)

/-- A declared failure of the action loop decomposes the list: a clean
prefix, then the failing action, nothing after; the reported index counts
the prefix, the error is the handler's raw error, and the event trace is the
prefix's dispatches plus the failing dispatch. -/
theorem runActions_failed_decomp {handlers : HandlerOracle} :
    ∀ (acts : List Value) {ctx : WorkflowContext} {i j : Nat} {err : Option String}
      {c : WorkflowContext} {evs : List EngineEvent},
      runActions handlers ctx i acts = .failed j err c evs →
      ∃ l1 a l2 r evs',
        acts = l1 ++ a :: l2 ∧ j = i + l1.length ∧
        runActions handlers ctx i l1 = .ok c evs' ∧
        executeAction handlers (substituteVariables a (contextToValue c)) c = .ok r ∧
        r.success = false ∧ err = r.error ∧
        evs = evs' ++ [.dispatched j (substituteVariables a (contextToValue c)) (.ok r)] := by
  intro acts
  induction acts with
  | nil =>
    intro ctx i j err c evs h
    rw [runActions] at h
    exact absurd h (by simp)
  | cons a rest ih =>
    intro ctx i j err c evs h
    rw [runActions_cons] at h
    cases hd : executeAction handlers (substituteVariables a (contextToValue ctx)) ctx with
    | fault m => rw [hd] at h; exact absurd h (by simp)
    | ok r =>
      rw [hd] at h
      dsimp only at h
      by_cases hs : r.success
      · rw [if_pos hs] at h
        cases hrec : runActions handlers
            { ctx with
              stepResults := objSet ctx.stepResults ("action_" ++ natRepr i) r.data,
              «variables» := objSet ctx.«variables» ("action_" ++ natRepr i ++ "_result") r.data }
            (i + 1) rest with
        | ok c2 evs2 => rw [hrec] at h; exact absurd h (by simp)
        | thrown j2 m2 c2 evs2 => rw [hrec] at h; exact absurd h (by simp)
        | failed j2 e2 c2 evs2 =>
          rw [hrec] at h
          injection h with h1 h2 h3 h4
          subst h1; subst h2; subst h3; subst h4
          obtain ⟨l1, a', l2, r', evs', hacts, hj, hok, hda, hsucc, herr, hevs⟩ := ih hrec
          refine ⟨a :: l1, a', l2, r',
            .dispatched i (substituteVariables a (contextToValue ctx)) (.ok r) :: evs',
            ?_, ?_, ?_, hda, hsucc, herr, ?_⟩
          · rw [hacts]; rfl
          · simp [hj]; omega
          · rw [runActions_cons, hd]
            dsimp only
            rw [if_pos hs, hok]
          · rw [hevs]; rfl
      · rw [if_neg hs] at h
        injection h with h1 h2 h3 h4
        subst h1; subst h2; subst h3; subst h4
        exact ⟨[], a, rest, r, [], rfl, by simp, rfl, hd, by simpa using hs, rfl, rfl⟩

/-- A fault of the action loop decomposes the list analogously, the trace
ending with the faulting dispatch. -/
theorem runActions_thrown_decomp {handlers : HandlerOracle} :
    ∀ (acts : List Value) {ctx : WorkflowContext} {i j : Nat} {m : Option String}
      {c : WorkflowContext} {evs : List EngineEvent},
      runActions handlers ctx i acts = .thrown j m c evs →
      ∃ l1 a l2 evs',
        acts = l1 ++ a :: l2 ∧ j = i + l1.length ∧
        runActions handlers ctx i l1 = .ok c evs' ∧
        executeAction handlers (substituteVariables a (contextToValue c)) c = .fault m ∧
        evs = evs' ++ [.dispatched j (substituteVariables a (contextToValue c)) (.fault m)] := by
  intro acts
  induction acts with
  | nil =>
    intro ctx i j m c evs h
    rw [runActions] at h
    exact absurd h (by simp)
  | cons a rest ih =>
    intro ctx i j m c evs h
    rw [runActions_cons] at h
    cases hd : executeAction handlers (substituteVariables a (contextToValue ctx)) ctx with
    | fault m2 =>
      rw [hd] at h
      dsimp only at h
      injection h with h1 h2 h3 h4
      subst h1; subst h2; subst h3; subst h4
      exact ⟨[], a, rest, [], rfl, by simp, rfl, hd, rfl⟩
    | ok r =>
      rw [hd] at h
      dsimp only at h
      by_cases hs : r.success
      · rw [if_pos hs] at h
        cases hrec : runActions handlers
            { ctx with
              stepResults := objSet ctx.stepResults ("action_" ++ natRepr i) r.data,
              «variables» := objSet ctx.«variables» ("action_" ++ natRepr i ++ "_result") r.data }
            (i + 1) rest with
        | ok c2 evs2 => rw [hrec] at h; exact absurd h (by simp)
        | failed j2 e2 c2 evs2 => rw [hrec] at h; exact absurd h (by simp)
        | thrown j2 m2 c2 evs2 =>
          rw [hrec] at h
          injection h with h1 h2 h3 h4
          subst h1; subst h2; subst h3; subst h4
          obtain ⟨l1, a', l2, evs', hacts, hj, hok, hda, hevs⟩ := ih hrec
          refine ⟨a :: l1, a', l2,
            .dispatched i (substituteVariables a (contextToValue ctx)) (.ok r) :: evs',
            ?_, ?_, ?_, hda, ?_⟩
          · rw [hacts]; rfl
          · simp [hj]; omega
          · rw [runActions_cons, hd]
            dsimp only
            rw [if_pos hs, hok]
          · rw [hevs]; rfl
      · rw [if_neg hs] at h
        exact absurd h (by simp)

/-- A clean run of the action loop appends exactly one step-result entry per
action, keyed by consecutive indexes, mirrors each entry into `variables`
under the `_result` suffix, leaves the scalar context fields alone, and
emits only successful dispatches with indexes inside the list's range. -/
theorem runActions_ok_shape {handlers : HandlerOracle} :
    ∀ (acts : List Value) (ctx : WorkflowContext) (i : Nat) {c : WorkflowContext}
      {evs : List EngineEvent},
      runActions handlers ctx i acts = .ok c evs →
      (∀ j, i ≤ j → ∀ p ∈ ctx.stepResults, p.1 ≠ "action_" ++ natRepr j) →
      (∀ j, i ≤ j → ∀ p ∈ ctx.«variables», p.1 ≠ "action_" ++ natRepr j ++ "_result") →
      ∃ entries : List (String × Value),
        c.stepResults = ctx.stepResults ++ entries ∧
        c.«variables» = ctx.«variables» ++ entries.map (fun p => (p.1 ++ "_result", p.2)) ∧
        entries.map Prod.fst = (List.range acts.length).map (fun j => "action_" ++ natRepr (i + j)) ∧
        c.workflowId = ctx.workflowId ∧ c.userId = ctx.userId ∧
        c.triggerData = ctx.triggerData ∧
        (∀ idx a o, EngineEvent.dispatched idx a o ∈ evs →
          i ≤ idx ∧ idx < i + acts.length ∧ ∃ r, o = .ok r ∧ r.success = true) := by
  intro acts
  induction acts with
  | nil =>
    intro ctx i c evs h hfs hfv
    rw [runActions] at h
    cases h
    exact ⟨[], by simp, by simp, by simp, rfl, rfl, rfl, by simp⟩
  | cons a rest ih =>
    intro ctx i c evs h hfs hfv
    rw [runActions_cons] at h
    cases hd : executeAction handlers (substituteVariables a (contextToValue ctx)) ctx with
    | fault m => rw [hd] at h; exact absurd h (by simp)
    | ok r =>
      rw [hd] at h
      dsimp only at h
      by_cases hs : r.success
      · rw [if_pos hs] at h
        have hfreshS : objSet ctx.stepResults ("action_" ++ natRepr i) r.data =
            ctx.stepResults ++ [("action_" ++ natRepr i, r.data)] :=
          objSet_fresh r.data fun p hp => hfs i (Nat.le_refl i) p hp
        have hfreshV : objSet ctx.«variables» ("action_" ++ natRepr i ++ "_result") r.data =
            ctx.«variables» ++ [("action_" ++ natRepr i ++ "_result", r.data)] :=
          objSet_fresh r.data fun p hp => hfv i (Nat.le_refl i) p hp
        cases hrec : runActions handlers
            { ctx with
              stepResults := objSet ctx.stepResults ("action_" ++ natRepr i) r.data,
              «variables» := objSet ctx.«variables» ("action_" ++ natRepr i ++ "_result") r.data }
            (i + 1) rest with
        | failed j2 e2 c2 evs2 => rw [hrec] at h; exact absurd h (by simp)
        | thrown j2 m2 c2 evs2 => rw [hrec] at h; exact absurd h (by simp)
        | ok c2 evs2 =>
          rw [hrec] at h
          injection h with h1 h2
          subst h1; subst h2
          have hfs' : ∀ j, i + 1 ≤ j →
              ∀ p ∈ (objSet ctx.stepResults ("action_" ++ natRepr i) r.data),
                p.1 ≠ "action_" ++ natRepr j := by
            intro j hj p hp
            rw [hfreshS] at hp
            rcases List.mem_append.mp hp with hp' | hp'
            · exact hfs j (by omega) p hp'
            · rcases List.mem_singleton.mp hp' with rfl
              intro hk
              have := actionKey_inj hk
              omega
          have hfv' : ∀ j, i + 1 ≤ j →
              ∀ p ∈ (objSet ctx.«variables» ("action_" ++ natRepr i ++ "_result") r.data),
                p.1 ≠ "action_" ++ natRepr j ++ "_result" := by
            intro j hj p hp
            rw [hfreshV] at hp
            rcases List.mem_append.mp hp with hp' | hp'
            · exact hfv j (by omega) p hp'
            · rcases List.mem_singleton.mp hp' with rfl
              intro hk
              have := actionVarKey_inj hk
              omega
          obtain ⟨entries, heS, heV, heK, hw, hu, ht, hev⟩ := ih _ (i + 1) hrec hfs' hfv'
          refine ⟨("action_" ++ natRepr i, r.data) :: entries, ?_, ?_, ?_, ?_, ?_, ?_, ?_⟩
          · rw [heS]
            dsimp only
            rw [hfreshS, List.append_assoc, List.singleton_append]
          · rw [heV]
            dsimp only
            rw [hfreshV, List.append_assoc, List.singleton_append, List.map_cons]
          · rw [List.map_cons, heK, List.length_cons, List.range_succ_eq_map,
              List.map_cons, List.map_map]
            refine congrArg₂ List.cons (by rw [Nat.add_zero]) ?_
            apply List.map_congr_left
            intro x hx
            simp only [Function.comp]
            have : i + 1 + x = i + (x + 1) := by omega
            rw [this]
          · rw [hw]
          · rw [hu]
          · rw [ht]
          · intro idx av o hin
            rcases List.mem_cons.mp hin with heq | hin'
            · injection heq with hh1 hh2 hh3
              subst hh1; subst hh3
              exact ⟨by omega, by simp only [List.length_cons]; omega, r, rfl, hs⟩
            · obtain ⟨hge, hlt, hr⟩ := hev idx av o hin'
              exact ⟨by omega, by simp at hlt ⊢; omega, hr⟩
      · rw [if_neg hs] at h
        exact absurd h (by simp)

/-- Unfolding of the trigger loop on a nonempty list. -/
theorem runTriggers_cons (ctx : WorkflowContext) (t : Value) (ts : List Value) :
    runTriggers ctx (t :: ts) =
      match validateTrigger t ctx with
      | .fault m => .thrown m ctx
      | .ok r =>
        if r.success then
          runTriggers
            { ctx with
              stepResults := objSet ctx.stepResults
                ("trigger_" ++ jsString (jsProp t "type")) r.data }
            ts
        else .invalid r.error ctx := rfl

/-- Looking a key up in an object with no entry under it gives nothing. -/
theorem lookup_none_of_all_ne {m : List (String × Value)} {key : String}
    (h : ∀ p ∈ m, p.1 ≠ key) : m.lookup key = none := by
  induction m with
  | nil => rfl
  | cons p rest ih =>
    obtain ⟨k, w⟩ := p
    have hk : k ≠ key := h (k, w) (by simp)
    simp only [List.lookup]
    have : (key == k) = false := by
      simp only [beq_eq_false_iff_ne, ne_eq]
      exact fun hkk => hk hkk.symm
    rw [this]
    exact ih fun p hp => h p (by simp [hp])

/-- Looking up past an absent prefix continues in the suffix. -/
theorem lookup_append_right {m l : List (String × Value)} {key : String}
    (h : m.lookup key = none) : (m ++ l).lookup key = l.lookup key := by
  induction m with
  | nil => rfl
  | cons p rest ih =>
    obtain ⟨k, w⟩ := p
    simp only [List.lookup, List.cons_append] at h ⊢
    cases hbeq : (key == k)
    · rw [hbeq] at h
      simp only at h ⊢
      exact ih h
    · rw [hbeq] at h
      simp at h

/-- Overwriting an existing key in place leaves the new value visible. -/
theorem lookup_map_set (key : String) (v : Value) :
    ∀ m : List (String × Value), (m.any fun p => p.1 = key) = true →
      ((m.map fun p => if p.1 = key then (key, v) else p).lookup key) = some v := by
  intro m
  induction m with
  | nil => intro h; simp at h
  | cons p rest ih =>
    intro h
    obtain ⟨k, w⟩ := p
    by_cases hk : k = key
    · subst hk
      simp only [List.map_cons]
      simp [List.lookup]
    · have hb : (key == k) = false := by
        simp only [beq_eq_false_iff_ne, ne_eq]
        exact fun hkk => hk hkk.symm
      simp only [List.map_cons]
      rw [if_neg (by simpa using hk)]
      simp only [List.lookup, hb]
      apply ih
      simp only [List.any_cons, Bool.or_eq_true, decide_eq_true_eq] at h
      rcases h with h | h
      · exact absurd h hk
      · exact h

/-- After a JavaScript assignment the assigned key holds the new value. -/
theorem lookup_objSet_self (m : List (String × Value)) (key : String) (v : Value) :
    (objSet m key v).lookup key = some v := by
  unfold objSet
  by_cases hany : (m.any fun p => p.1 = key) = true
  · rw [if_pos hany]
    exact lookup_map_set key v m hany
  · rw [if_neg hany]
    have hnone : m.lookup key = none := by
      apply lookup_none_of_all_ne
      intro p hp hpk
      exact hany (List.any_eq_true.mpr ⟨p, hp, by simpa using hpk⟩)
    rw [lookup_append_right hnone]
    simp [List.lookup]

/-- A trigger whose `type` is one of the four recognized strings validates
successfully, returning the raw trigger data. -/
theorem validateTrigger_recognized {t : Value} {s : String} (ctx : WorkflowContext)
    (hty : jsProp t "type" = .vStr s)
    (hs : s ∈ (["webhook", "manual", "email", "schedule"] : List String)) :
    validateTrigger t ctx =
      .ok { success := true, data := ctx.triggerData, error := none } := by
  cases t with
  | vNull => simp [jsProp] at hty
  | vUndef => simp [jsProp] at hty
  | vBool b => simp [jsProp] at hty
  | vNum n => simp [jsProp] at hty
  | vStr s2 => simp [jsProp] at hty
  | vArr elems => simp [jsProp] at hty
  | vObj fields =>
    have hred : validateTrigger (Value.vObj fields) ctx =
        match jsProp (Value.vObj fields) "type" with
        | .vStr "webhook" => .ok { success := true, data := ctx.triggerData, error := none }
        | .vStr "manual" => .ok { success := true, data := ctx.triggerData, error := none }
        | .vStr "email" => .ok { success := true, data := ctx.triggerData, error := none }
        | .vStr "schedule" => .ok { success := true, data := ctx.triggerData, error := none }
        | tv => .ok { success := false, data := .vUndef,
                      error := some ("Unknown trigger type: " ++ jsString tv) } := rfl
    rw [hred, hty]
    simp only [List.mem_cons, List.not_mem_nil, or_false] at hs
    rcases hs with rfl | rfl | rfl | rfl
    · rfl
    · rfl
    · rfl
    · rfl

/-- A trigger that is not `null`/`undefined` and whose `type` is outside the
recognized set fails validation with the unknown-type error naming the
type's string form. -/
theorem validateTrigger_unknown {t : Value} (ctx : WorkflowContext)
    (hnn : t ≠ .vNull) (hnu : t ≠ .vUndef)
    (hty : ∀ s, jsProp t "type" = .vStr s →
      s ∉ (["webhook", "manual", "email", "schedule"] : List String)) :
    validateTrigger t ctx =
      .ok { success := false, data := .vUndef,
            error := some ("Unknown trigger type: " ++ jsString (jsProp t "type")) } := by
  cases t with
  | vNull => exact absurd rfl hnn
  | vUndef => exact absurd rfl hnu
  | vBool b => rfl
  | vNum n => rfl
  | vStr s2 => rfl
  | vArr elems => rfl
  | vObj fields =>
    have hred : validateTrigger (Value.vObj fields) ctx =
        match jsProp (Value.vObj fields) "type" with
        | .vStr "webhook" => .ok { success := true, data := ctx.triggerData, error := none }
        | .vStr "manual" => .ok { success := true, data := ctx.triggerData, error := none }
        | .vStr "email" => .ok { success := true, data := ctx.triggerData, error := none }
        | .vStr "schedule" => .ok { success := true, data := ctx.triggerData, error := none }
        | tv => .ok { success := false, data := .vUndef,
                      error := some ("Unknown trigger type: " ++ jsString tv) } := rfl
    rw [hred]
    cases hj : jsProp (Value.vObj fields) "type" with
    | vStr s =>
      have hnot := hty s hj
      simp only [List.mem_cons, List.not_mem_nil, or_false, not_or] at hnot
      obtain ⟨h1, h2, h3, h4⟩ := hnot
      split
      · next heq => exact absurd (by injection heq) h1
      · next heq => exact absurd (by injection heq) h2
      · next heq => exact absurd (by injection heq) h3
      · next heq => exact absurd (by injection heq) h4
      · rfl
    | vUndef => rfl
    | vNull => rfl
    | vBool b => rfl
    | vNum n => rfl
    | vArr elems => rfl
    | vObj fields2 => rfl

/-- An action that is not `null`/`undefined` and whose `type` is not a
recognized handler key is answered by a declared failure naming the type's
string form, without consulting any handler and without throwing. -/
theorem executeAction_unknown (handlers : HandlerOracle) {action : Value}
    (context : WorkflowContext)
    (hnn : action ≠ .vNull) (hnu : action ≠ .vUndef)
    (hty : ∀ s, jsProp action "type" = .vStr s → s ∉ knownActionTypes) :
    executeAction handlers action context =
      .ok { success := false, data := .vUndef,
            error := some ("Unknown action type: " ++ jsString (jsProp action "type")) } := by
  cases action with
  | vNull => exact absurd rfl hnn
  | vUndef => exact absurd rfl hnu
  | vBool b => rfl
  | vNum n => rfl
  | vStr s2 =>
    have hj : jsProp (Value.vStr s2) "type" = .vUndef := rfl
    rfl
  | vArr elems => rfl
  | vObj fields =>
    have hred : executeAction handlers (Value.vObj fields) context =
        match jsProp (Value.vObj fields) "type" with
        | .vStr t =>
          if t ∈ knownActionTypes then
            handlers t (jsProp (Value.vObj fields) "config") context
          else .ok { success := false, data := .vUndef,
                     error := some ("Unknown action type: " ++ t) }
        | tv => .ok { success := false, data := .vUndef,
                      error := some ("Unknown action type: " ++ jsString tv) } := rfl
    rw [hred]
    cases hj : jsProp (Value.vObj fields) "type" with
    | vStr s =>
      dsimp only
      rw [if_neg (hty s hj)]
      rfl
    | vUndef => rfl
    | vNull => rfl
    | vBool b => rfl
    | vNum n => rfl
    | vArr elems => rfl
    | vObj fields2 => rfl

/-- A clean trigger phase leaves every context field except `stepResults`
alone, preserves existing step entries, stores only the raw trigger data,
keys every new entry by a trigger type, and records every trigger of the
list under its key. -/
theorem runTriggers_ok_props :
    ∀ (ts : List Value) {ctx c : WorkflowContext},
      runTriggers ctx ts = .ok c →
      (∀ p ∈ ctx.stepResults, p.2 = ctx.triggerData) →
      c.workflowId = ctx.workflowId ∧ c.userId = ctx.userId ∧
      c.triggerData = ctx.triggerData ∧ c.«variables» = ctx.«variables» ∧
      mapPreserved ctx.stepResults c.stepResults ∧
      (∀ p ∈ c.stepResults, p.2 = ctx.triggerData) ∧
      (∀ p ∈ c.stepResults, p ∈ ctx.stepResults ∨
        ∃ t ∈ ts, p.1 = "trigger_" ++ jsString (jsProp t "type")) ∧
      (∀ t ∈ ts, ∃ v, c.stepResults.lookup ("trigger_" ++ jsString (jsProp t "type")) = some v) := by
  intro ts
  induction ts with
  | nil =>
    intro ctx c h hall
    rw [runTriggers] at h
    cases h
    exact ⟨rfl, rfl, rfl, rfl, mapPreserved_refl _, hall, fun p hp => Or.inl hp, by simp⟩
  | cons t rest ih =>
    intro ctx c h hall
    rw [runTriggers_cons] at h
    cases hv : validateTrigger t ctx with
    | fault m => rw [hv] at h; exact absurd h (by simp)
    | ok r =>
      rw [hv] at h
      dsimp only at h
      by_cases hs : r.success
      · rw [if_pos hs] at h
        set key := "trigger_" ++ jsString (jsProp t "type") with hkey
        have hrd : r.data = ctx.triggerData := by
          have hred : validateTrigger t ctx = .ok r := hv
          cases t with
          | vNull => simp [validateTrigger] at hred
          | vUndef => simp [validateTrigger] at hred
          | vBool b => injection hred with h'; rw [← h'] at hs; simp at hs
          | vNum n => injection hred with h'; rw [← h'] at hs; simp at hs
          | vStr s2 => injection hred with h'; rw [← h'] at hs; simp at hs
          | vArr elems => injection hred with h'; rw [← h'] at hs; simp at hs
          | vObj fields =>
            have hred2 : validateTrigger (Value.vObj fields) ctx =
                match jsProp (Value.vObj fields) "type" with
                | .vStr "webhook" => .ok { success := true, data := ctx.triggerData, error := none }
                | .vStr "manual" => .ok { success := true, data := ctx.triggerData, error := none }
                | .vStr "email" => .ok { success := true, data := ctx.triggerData, error := none }
                | .vStr "schedule" => .ok { success := true, data := ctx.triggerData, error := none }
                | tv => .ok { success := false, data := .vUndef,
                              error := some ("Unknown trigger type: " ++ jsString tv) } := rfl
            rw [hred2] at hred
            split at hred
            · injection hred with h'; rw [← h']
            · injection hred with h'; rw [← h']
            · injection hred with h'; rw [← h']
            · injection hred with h'; rw [← h']
            · injection hred with h'
              rw [← h'] at hs
              simp at hs
        have hall' : ∀ p ∈ objSet ctx.stepResults key r.data, p.2 = ctx.triggerData := by
          intro p hp
          rcases objSet_of_all_eq (v := r.data) key
              (fun p hp2 => (hall p hp2).trans hrd.symm) with heq | heq
          · rw [heq] at hp
            exact hall p hp
          · rw [heq] at hp
            rcases List.mem_append.mp hp with hp' | hp'
            · exact hall p hp'
            · rcases List.mem_singleton.mp hp' with rfl
              exact hrd
        obtain ⟨hw, hu, ht, hvv, hpres, hall2, hsrc, hrec⟩ := ih h (by
          intro p hp
          exact hall' p hp)
        refine ⟨hw, hu, ht, hvv, ?_, hall2, ?_, ?_⟩
        · refine mapPreserved_trans ?_ hpres
          rcases objSet_of_all_eq (v := r.data) key
              (fun p hp2 => (hall p hp2).trans hrd.symm) with heq | heq
          · rw [heq]; exact mapPreserved_refl _
          · rw [heq]; exact mapPreserved_append _ _
        · intro p hp
          rcases hsrc p hp with hp' | hp'
          · rcases objSet_of_all_eq (v := r.data) key
                (fun p hp2 => (hall p hp2).trans hrd.symm) with heq | heq
            · rw [heq] at hp'
              exact Or.inl hp'
            · rw [heq] at hp'
              rcases List.mem_append.mp hp' with hp'' | hp''
              · exact Or.inl hp''
              · rcases List.mem_singleton.mp hp'' with rfl
                exact Or.inr ⟨t, by simp, rfl⟩
          · obtain ⟨t2, ht2, hk2⟩ := hp'
            exact Or.inr ⟨t2, by simp [ht2], hk2⟩
        · intro t2 ht2
          rcases List.mem_cons.mp ht2 with rfl | ht2'
          · have hself : (objSet ctx.stepResults key r.data).lookup key = some r.data :=
              lookup_objSet_self _ _ _
            exact ⟨r.data, hpres key r.data hself⟩
          · exact hrec t2 ht2'
      · rw [if_neg hs] at h
        exact absurd h (by simp)

/-- Composing the trigger loop across an append when the first part runs
clean. -/
theorem runTriggers_append_ok :
    ∀ (l1 : List Value) {ctx c : WorkflowContext},
      runTriggers ctx l1 = .ok c → ∀ l2, runTriggers ctx (l1 ++ l2) = runTriggers c l2 := by
  intro l1
  induction l1 with
  | nil =>
    intro ctx c h l2
    rw [runTriggers] at h
    cases h
    rfl
  | cons t rest ih =>
    intro ctx c h l2
    rw [runTriggers_cons] at h
    rw [List.cons_append, runTriggers_cons]
    cases hv : validateTrigger t ctx with
    | fault m => rw [hv] at h; exact absurd h (by simp)
    | ok r =>
      rw [hv] at h
      dsimp only at h
      dsimp only
      by_cases hs : r.success
      · rw [if_pos hs] at h ⊢
        exact ih h l2
      · rw [if_neg hs] at h
        exact absurd h (by simp)

/-- A list of triggers whose types are all recognized runs the trigger loop
clean. -/
theorem runTriggers_recognized_ok :
    ∀ (ts : List Value) (ctx : WorkflowContext),
      (∀ t ∈ ts, ∃ s, jsProp t "type" = .vStr s ∧
        s ∈ (["webhook", "manual", "email", "schedule"] : List String)) →
      ∃ c, runTriggers ctx ts = .ok c ∧ c.triggerData = ctx.triggerData := by
  intro ts
  induction ts with
  | nil => intro ctx hrec; exact ⟨ctx, rfl, rfl⟩
  | cons t rest ih =>
    intro ctx hrec
    obtain ⟨s, hty, hs⟩ := hrec t (by simp)
    rw [runTriggers_cons, validateTrigger_recognized ctx hty hs]
    dsimp only
    rw [if_pos rfl]
    obtain ⟨c, hc, hcd⟩ := ih _ fun t2 ht2 => hrec t2 (by simp [ht2])
    exact ⟨c, hc, hcd⟩

/-- The run outcome when a trigger fails validation. -/
theorem executeWorkflow_eq_invalid (handlers : HandlerOracle) (eid : String)
    {wf : Workflow} {td : Value} {err : Option String} {ctx : WorkflowContext}
    (h : runTriggers (initialContext wf td) (triggerListOf wf) = .invalid err ctx) :
    executeWorkflow handlers eid wf td =
      { success := false, error := err, data := none, executionId := eid,
        events := EngineEvent.createExecution wf.id td ::
          updateExecutionStatus wf eid "failed" err none,
        finalContext := ctx } := by
  simp only [executeWorkflow]
  rw [h]

/-- The run outcome when trigger validation throws. -/
theorem executeWorkflow_eq_trigThrown (handlers : HandlerOracle) (eid : String)
    {wf : Workflow} {td : Value} {m : Option String} {ctx : WorkflowContext}
    (h : runTriggers (initialContext wf td) (triggerListOf wf) = .thrown m ctx) :
    executeWorkflow handlers eid wf td =
      { success := false,
        error := some (match m with | some msg => msg | none => "Unknown workflow error"),
        data := none, executionId := eid,
        events := EngineEvent.createExecution wf.id td ::
          updateExecutionStatus wf eid "failed"
            (some (match m with | some msg => msg | none => "Unknown workflow error")) none,
        finalContext := ctx } := by
  simp only [executeWorkflow, h]
  cases m <;> rfl

/-- The run outcome when all triggers validate and every action succeeds. -/
theorem executeWorkflow_eq_ok {handlers : HandlerOracle} (eid : String)
    {wf : Workflow} {td : Value} {tc c : WorkflowContext} {evs : List EngineEvent}
    (ht : runTriggers (initialContext wf td) (triggerListOf wf) = .ok tc)
    (ha : runActions handlers tc 0 (actionListOf wf) = .ok c evs) :
    executeWorkflow handlers eid wf td =
      { success := true, error := none, data := some (.vObj c.stepResults),
        executionId := eid,
        events := EngineEvent.createExecution wf.id td :: evs ++
          updateExecutionStatus wf eid "completed" none (some (.vObj c.stepResults)),
        finalContext := c } := by
  simp only [executeWorkflow, ht, ha]

/-- The run outcome when an action declares failure: the raw handler error
goes to the store, the prefixed message to the caller. -/
theorem executeWorkflow_eq_failed {handlers : HandlerOracle} (eid : String)
    {wf : Workflow} {td : Value} {tc c : WorkflowContext} {i : Nat}
    {err : Option String} {evs : List EngineEvent}
    (ht : runTriggers (initialContext wf td) (triggerListOf wf) = .ok tc)
    (ha : runActions handlers tc 0 (actionListOf wf) = .failed i err c evs) :
    executeWorkflow handlers eid wf td =
      { success := false,
        error := some ("Action " ++ natRepr (i + 1) ++ " failed: " ++ optStrOrUndefined err),
        data := none, executionId := eid,
        events := EngineEvent.createExecution wf.id td :: evs ++
          updateExecutionStatus wf eid "failed" err none,
        finalContext := c } := by
  simp only [executeWorkflow, ht, ha]

/-- The run outcome when a dispatch throws: the prefixed message goes both
to the store and to the caller. -/
theorem executeWorkflow_eq_actThrown {handlers : HandlerOracle} (eid : String)
    {wf : Workflow} {td : Value} {tc c : WorkflowContext} {i : Nat}
    {m : Option String} {evs : List EngineEvent}
    (ht : runTriggers (initialContext wf td) (triggerListOf wf) = .ok tc)
    (ha : runActions handlers tc 0 (actionListOf wf) = .thrown i m c evs) :
    executeWorkflow handlers eid wf td =
      { success := false,
        error := some ("Action " ++ natRepr (i + 1) ++ " error: " ++
          (match m with | some msg => msg | none => "Unknown error")),
        data := none, executionId := eid,
        events := EngineEvent.createExecution wf.id td :: evs ++
          updateExecutionStatus wf eid "failed"
            (some ("Action " ++ natRepr (i + 1) ++ " error: " ++
              (match m with | some msg => msg | none => "Unknown error"))) none,
        finalContext := c } := by
  simp only [executeWorkflow, ht, ha]
  cases m <;> rfl

/-- Dispatch events do not touch the Execution row. -/
theorem foldl_applyEvent_dispatched {evs : List EngineEvent}
    (h : ∀ e ∈ evs, ∃ idx a o, e = .dispatched idx a o) :
    ∀ r, evs.foldl applyEvent r = r := by
  induction evs with
  | nil => intro r; rfl
  | cons e rest ih =>
    intro r
    obtain ⟨idx, a, o, rfl⟩ := h e (by simp)
    rw [List.foldl_cons]
    exact ih (fun e2 he2 => h e2 (by simp [he2])) r

/-- Dispatch events are not Execution-row writes. -/
theorem filter_isExecutionWrite_dispatched {evs : List EngineEvent}
    (h : ∀ e ∈ evs, ∃ idx a o, e = .dispatched idx a o) :
    evs.filter isExecutionWrite = [] := by
  induction evs with
  | nil => rfl
  | cons e rest ih =>
    obtain ⟨idx, a, o, rfl⟩ := h e (by simp)
    rw [List.filter_cons]
    simp only [isExecutionWrite, Bool.false_eq_true, if_false]
    exact ih fun e2 he2 => h e2 (by simp [he2])

/-- Dispatch events are not Notification inserts. -/
theorem notificationEvents_dispatched {evs : List EngineEvent}
    (h : ∀ e ∈ evs, ∃ idx a o, e = .dispatched idx a o) :
    notificationEvents evs = [] := by
  induction evs with
  | nil => rfl
  | cons e rest ih =>
    obtain ⟨idx, a, o, rfl⟩ := h e (by simp)
    unfold notificationEvents at ih ⊢
    rw [List.filter_cons]
    simp only [Bool.false_eq_true, if_false]
    exact ih fun e2 he2 => h e2 (by simp [he2])

/-- The Notification inserts of appended traces concatenate. -/
theorem notificationEvents_append (l1 l2 : List EngineEvent) :
    notificationEvents (l1 ++ l2) = notificationEvents l1 ++ notificationEvents l2 := by
  unfold notificationEvents
  exact List.filter_append _ _

/-- C9 (amended): resolving a value against the empty context returns the
value unchanged — every placeholder left intact, all non-templated data
untouched — provided no placeholder's first path segment names a member
inherited from `Object.prototype`; member access in `getNestedValue`
traverses the prototype chain, so a placeholder such as {{toString}} does
resolve against the empty object and the unrestricted identity fails. -/
theorem spec_c9_empty_context_resolution (v : Value) (h : protoFree v = true) :
    substituteVariablesP v (.vObj []) = some v :=
  substituteVariablesP_emptyObj v h

/-- Counterexample to the original C9: `getNestedValue({}, "toString")`
reaches `Object.prototype.toString` through the prototype chain, which is
not `undefined`, so the placeholder is replaced by the function's string
form instead of being left intact — empty-context resolution is not the
identity. -/
theorem spec_c9_counterexample :
    substituteVariablesP (.vStr "\x7b\x7btoString\x7d\x7d") (.vObj []) =
      some (.vStr "function toString() \x7b [native code] \x7d") ∧
    substituteVariablesP (.vStr "\x7b\x7btoString\x7d\x7d") (.vObj []) ≠
      some (.vStr "\x7b\x7btoString\x7d\x7d") := by
  refine ⟨rfl, ?_⟩
  intro hcontra
  rw [show substituteVariablesP (.vStr "\x7b\x7btoString\x7d\x7d") (.vObj []) =
      some (.vStr "function toString() \x7b [native code] \x7d") from rfl] at hcontra
  injection hcontra with h1
  injection h1 with h2
  exact absurd h2 (by decide)

/-- Witness for C9: a concrete object whose placeholder heads (`missing`,
`0`) are no inherited members resolves to itself against the empty
context. -/
theorem spec_c9_witness :
    protoFree (.vObj [("greeting", .vStr "hi \x7b\x7bmissing.name\x7d\x7d"),
      ("items", .vArr [.vStr "\x7b\x7b0.id\x7d\x7d", .vNum 3]),
      ("flag", .vBool true)]) = true ∧
    substituteVariablesP
        (.vObj [("greeting", .vStr "hi \x7b\x7bmissing.name\x7d\x7d"),
          ("items", .vArr [.vStr "\x7b\x7b0.id\x7d\x7d", .vNum 3]),
          ("flag", .vBool true)]) (.vObj []) =
      some (.vObj [("greeting", .vStr "hi \x7b\x7bmissing.name\x7d\x7d"),
        ("items", .vArr [.vStr "\x7b\x7b0.id\x7d\x7d", .vNum 3]),
        ("flag", .vBool true)]) :=
  ⟨rfl, spec_c9_empty_context_resolution _ rfl⟩

/-- C8: `substituteVariables` resolves sequences element-wise with order
preserved, resolves mappings value-wise keeping the same keys in the same
order, and returns scalars — numbers, booleans, `null` (and `undefined`) —
unchanged. -/
theorem spec_c8_structural_resolution (context : Value) :
    (∀ elems : List Value, substituteVariables (.vArr elems) context =
      .vArr (elems.map fun v => substituteVariables v context)) ∧
    (∀ fields : List (String × Value), substituteVariables (.vObj fields) context =
      .vObj (fields.map fun p => (p.1, substituteVariables p.2 context))) ∧
    (∀ fields : List (String × Value),
      (substituteFields fields context).map Prod.fst = fields.map Prod.fst) ∧
    (∀ n : Int, substituteVariables (.vNum n) context = .vNum n) ∧
    (∀ b : Bool, substituteVariables (.vBool b) context = .vBool b) ∧
    substituteVariables .vNull context = .vNull ∧
    substituteVariables .vUndef context = .vUndef := by
  refine ⟨?_, ?_, ?_, fun n => rfl, fun b => rfl, rfl, rfl⟩
  · intro elems
    rw [substituteVariables, substituteList_eq_map]
  · intro fields
    rw [substituteVariables, substituteFields_eq_map]
  · intro fields
    rw [substituteFields_eq_map, List.map_map]
    rfl

/-- C2: `substituteInString` is total and rewrites exactly the
non-overlapping double-braced tokens of the input — whose captured content
is a nonempty run of characters other than a closing brace — replacing each
by the string form of the value its trimmed dot-path resolves to in the
context, and leaving the whole token verbatim (never an empty string)
whenever resolution fails with `undefined`; all remaining characters are
untouched, as witnessed by the tokens spelling the input back out. -/
theorem spec_c2_placeholder_substitution (context : Value) (s : String) :
    (substituteInString s context).data =
      (tokenize s.data).flatMap (renderToken context) ∧
    (tokenize s.data).flatMap tokenText = s.data ∧
    (∀ t ∈ tokenize s.data, ∀ content, t = .ph content →
      content ≠ [] ∧ ∀ c ∈ content, c ≠ '}') ∧
    (∀ content, getNestedValue context (String.mk (trimChars content)) = .vUndef →
      renderToken context (.ph content) = tokenText (.ph content)) ∧
    (∀ content v, getNestedValue context (String.mk (trimChars content)) = v →
      v ≠ .vUndef → renderToken context (.ph content) = (jsString v).data) := by
  refine ⟨?_, tokenize_flatMap_text s.data, tokenize_ph_wf s.data, ?_, ?_⟩
  · rw [substituteInString]
    exact substChars_eq_flatMap context s.data
  · intro content h
    rw [renderToken, h]
    rfl
  · intro content v h hne
    rw [renderToken, h]
    cases v <;> first | rfl | exact absurd rfl hne

/-- Witness for C2 at the specification's own example: the context maps
`trigger.email` to an address; the resolving token is rewritten, the
failing token is kept verbatim. -/
theorem spec_c2_witness :
    (substituteInString "\x7b\x7btrigger.email\x7d\x7d"
        (.vObj [("trigger", .vObj [("email", .vStr "a@b.com")])])).data =
      (tokenize ("\x7b\x7btrigger.email\x7d\x7d" : String).data).flatMap
        (renderToken (.vObj [("trigger", .vObj [("email", .vStr "a@b.com")])])) ∧
    renderToken (.vObj [("trigger", .vObj [("email", .vStr "a@b.com")])])
        (.ph ("trigger.missing" : String).data) =
      tokenText (.ph ("trigger.missing" : String).data) ∧
    substituteInString "\x7b\x7btrigger.email\x7d\x7d"
        (.vObj [("trigger", .vObj [("email", .vStr "a@b.com")])]) = "a@b.com" ∧
    substituteInString "\x7b\x7btrigger.missing\x7d\x7d"
        (.vObj [("trigger", .vObj [("email", .vStr "a@b.com")])]) =
      "\x7b\x7btrigger.missing\x7d\x7d" := by
  refine ⟨(spec_c2_placeholder_substitution
      (.vObj [("trigger", .vObj [("email", .vStr "a@b.com")])])
      "\x7b\x7btrigger.email\x7d\x7d").1,
    (spec_c2_placeholder_substitution
      (.vObj [("trigger", .vObj [("email", .vStr "a@b.com")])])
      "\x7b\x7btrigger.email\x7d\x7d").2.2.2.1
      ("trigger.missing" : String).data (by rfl), by rfl, by rfl⟩

/-- Dispatch events are not terminal updates. -/
theorem filter_isUpdateEvent_dispatched {evs : List EngineEvent}
    (h : ∀ e ∈ evs, ∃ idx a o, e = .dispatched idx a o) :
    evs.filter isUpdateEvent = [] := by
  induction evs with
  | nil => rfl
  | cons e rest ih =>
    obtain ⟨idx, a, o, rfl⟩ := h e (by simp)
    rw [List.filter_cons]
    simp only [isUpdateEvent, Bool.false_eq_true, if_false]
    exact ih fun e2 he2 => h e2 (by simp [he2])

/-- The Execution row a full run trace leaves behind: created, then exactly
one terminal update setting status, endTime, error and output. -/
theorem finalRecord_run (wf : Workflow) (eid : String) (td : Value) (st : String)
    (err : Option String) (outp : Option Value) (mid : List EngineEvent)
    (hmid : ∀ e ∈ mid, ∃ idx a o, e = .dispatched idx a o) :
    finalRecord (EngineEvent.createExecution wf.id td ::
        mid ++ updateExecutionStatus wf eid st err outp) =
      { workflowId := wf.id, status := st, startTimeSet := true, endTimeSet := true,
        input := td, output := outp, error := err } := by
  unfold finalRecord updateExecutionStatus
  rw [List.cons_append, List.foldl_cons, List.foldl_append, foldl_applyEvent_dispatched hmid]
  by_cases hst : st = "failed"
  · rw [if_pos hst]; rfl
  · rw [if_neg hst]; rfl

/-- The Execution-row writes of a full run trace: the insert, then the one
terminal update, in that order, and nothing after it. -/
theorem trace_writes (wf : Workflow) (eid : String) (td : Value) (st : String)
    (err : Option String) (outp : Option Value) (mid : List EngineEvent)
    (hmid : ∀ e ∈ mid, ∃ idx a o, e = .dispatched idx a o) :
    (EngineEvent.createExecution wf.id td ::
        mid ++ updateExecutionStatus wf eid st err outp).filter isExecutionWrite =
      [EngineEvent.createExecution wf.id td, EngineEvent.updateExecution st err outp] := by
  unfold updateExecutionStatus
  rw [List.cons_append, List.filter_cons]
  simp only [isExecutionWrite, if_pos]
  rw [List.filter_append, filter_isExecutionWrite_dispatched hmid]
  by_cases hst : st = "failed"
  · rw [if_pos hst]; rfl
  · rw [if_neg hst]; rfl

/-- The terminal updates of a full run trace: exactly one. -/
theorem trace_updates (wf : Workflow) (eid : String) (td : Value) (st : String)
    (err : Option String) (outp : Option Value) (mid : List EngineEvent)
    (hmid : ∀ e ∈ mid, ∃ idx a o, e = .dispatched idx a o) :
    (EngineEvent.createExecution wf.id td ::
        mid ++ updateExecutionStatus wf eid st err outp).filter isUpdateEvent =
      [EngineEvent.updateExecution st err outp] := by
  unfold updateExecutionStatus
  rw [List.cons_append, List.filter_cons]
  simp only [isUpdateEvent, Bool.false_eq_true, if_false]
  rw [List.filter_append, filter_isUpdateEvent_dispatched hmid]
  by_cases hst : st = "failed"
  · rw [if_pos hst]; rfl
  · rw [if_neg hst]; rfl

/-- The Notification inserts of a full run trace: exactly one on failure,
none otherwise. -/
theorem trace_notifs (wf : Workflow) (eid : String) (td : Value) (st : String)
    (err : Option String) (outp : Option Value) (mid : List EngineEvent)
    (hmid : ∀ e ∈ mid, ∃ idx a o, e = .dispatched idx a o) :
    notificationEvents (EngineEvent.createExecution wf.id td ::
        mid ++ updateExecutionStatus wf eid st err outp) =
      if st = "failed" then
        [EngineEvent.createNotification wf.userId "workflow_error"
          ("Workflow \"" ++ wf.name ++ "\" failed: " ++ optStrOrNull err) wf.id eid]
      else [] := by
  unfold updateExecutionStatus
  unfold notificationEvents
  rw [List.cons_append, List.filter_cons]
  simp only [Bool.false_eq_true, if_false]
  rw [List.filter_append]
  have h1 : List.filter (fun e => match e with
      | EngineEvent.createNotification _ _ _ _ _ => true
      | _ => false) mid = [] := by
    have := notificationEvents_dispatched hmid
    unfold notificationEvents at this
    exact this
  rw [h1]
  by_cases hst : st = "failed"
  · rw [if_pos hst]; rfl
  · rw [if_neg hst]; rfl

/-- C7: for every action descriptor whose `type` is not a registered handler
key, `executeAction` returns a declared failure naming the type without
raising, and when the engine reaches such an action the run fails at that
step with the prefixed message — the step is not skipped. -/
theorem spec_c7_unknown_action_type :
    (∀ (handlers : HandlerOracle) (context : WorkflowContext) (action : Value),
      action ≠ .vNull → action ≠ .vUndef →
      (∀ s, jsProp action "type" = .vStr s → s ∉ knownActionTypes) →
      executeAction handlers action context =
        .ok { success := false, data := .vUndef,
              error := some ("Unknown action type: " ++ jsString (jsProp action "type")) }) ∧
    (∀ (handlers : HandlerOracle) (eid : String) (wf : Workflow) (td : Value)
      (tc c : WorkflowContext) (pre : List Value) (bad : Value) (post : List Value)
      (evs : List EngineEvent),
      runTriggers (initialContext wf td) (triggerListOf wf) = .ok tc →
      actionListOf wf = pre ++ bad :: post →
      runActions handlers tc 0 pre = .ok c evs →
      substituteVariables bad (contextToValue c) ≠ .vNull →
      substituteVariables bad (contextToValue c) ≠ .vUndef →
      (∀ s, jsProp (substituteVariables bad (contextToValue c)) "type" = .vStr s →
        s ∉ knownActionTypes) →
      (executeWorkflow handlers eid wf td).success = false ∧
      (executeWorkflow handlers eid wf td).error =
        some ("Action " ++ natRepr (pre.length + 1) ++ " failed: " ++
          ("Unknown action type: " ++
            jsString (jsProp (substituteVariables bad (contextToValue c)) "type"))) ∧
      (finalRecord (executeWorkflow handlers eid wf td).events).status = "failed") := by
  refine ⟨fun handlers context action hnn hnu hty =>
    executeAction_unknown handlers context hnn hnu hty, ?_⟩
  intro handlers eid wf td tc c pre bad post evs ht hacts hok hnn hnu hty
  have hval := executeAction_unknown handlers c hnn hnu hty
  have hstep : runActions handlers c (0 + pre.length) (bad :: post) =
      .failed (0 + pre.length)
        (some ("Unknown action type: " ++
          jsString (jsProp (substituteVariables bad (contextToValue c)) "type")))
        c
        [.dispatched (0 + pre.length) (substituteVariables bad (contextToValue c))
          (.ok { success := false, data := .vUndef,
                 error := some ("Unknown action type: " ++
                   jsString (jsProp (substituteVariables bad (contextToValue c)) "type")) })] := by
    rw [runActions_cons, hval]
    rfl
  have hfull : runActions handlers tc 0 (actionListOf wf) =
      .failed (0 + pre.length)
        (some ("Unknown action type: " ++
          jsString (jsProp (substituteVariables bad (contextToValue c)) "type")))
        c
        (evs ++ [.dispatched (0 + pre.length) (substituteVariables bad (contextToValue c))
          (.ok { success := false, data := .vUndef,
                 error := some ("Unknown action type: " ++
                   jsString (jsProp (substituteVariables bad (contextToValue c)) "type")) })]) := by
    rw [hacts, runActions_append_ok pre hok (bad :: post), hstep]
  have hzero : 0 + pre.length = pre.length := Nat.zero_add _
  rw [hzero] at hfull
  have hout := executeWorkflow_eq_failed eid ht hfull
  rw [hout]
  have hmid : ∀ e ∈ evs ++ [EngineEvent.dispatched pre.length
      (substituteVariables bad (contextToValue c))
      (.ok { success := false, data := .vUndef,
             error := some ("Unknown action type: " ++
               jsString (jsProp (substituteVariables bad (contextToValue c)) "type")) })],
      ∃ idx a o, e = .dispatched idx a o := by
    intro e he
    rcases List.mem_append.mp he with he' | he'
    · have := runActions_events_dispatched handlers pre tc 0
      rw [hok] at this
      exact this e he'
    · rcases List.mem_singleton.mp he' with rfl
      exact ⟨_, _, _, rfl⟩
  refine ⟨rfl, rfl, ?_⟩
  rw [finalRecord_run wf eid td "failed" _ none _ hmid]

/-- Witness for C7: a one-action workflow whose action type `teleport` is
unknown fails its run at action 1 with the unknown-type message. -/
theorem spec_c7_witness :
    (executeWorkflow (fun _ _ _ => .ok { success := true, data := .vNull, error := none })
      "exec1"
      { id := "w1", userId := "u1", name := "W",
        triggers := none,
        actions := some [.vObj [("type", .vStr "teleport"), ("config", .vObj [])]] }
      (.vObj [])).success = false ∧
    (executeWorkflow (fun _ _ _ => .ok { success := true, data := .vNull, error := none })
      "exec1"
      { id := "w1", userId := "u1", name := "W",
        triggers := none,
        actions := some [.vObj [("type", .vStr "teleport"), ("config", .vObj [])]] }
      (.vObj [])).error = some ("Action " ++ natRepr 1 ++ " failed: " ++
        ("Unknown action type: " ++ jsString (.vStr "teleport"))) ∧
    (finalRecord (executeWorkflow
      (fun _ _ _ => .ok { success := true, data := .vNull, error := none })
      "exec1"
      { id := "w1", userId := "u1", name := "W",
        triggers := none,
        actions := some [.vObj [("type", .vStr "teleport"), ("config", .vObj [])]] }
      (.vObj [])).events).status = "failed" := by
  have h := spec_c7_unknown_action_type.2
    (fun _ _ _ => .ok { success := true, data := .vNull, error := none })
    "exec1"
    { id := "w1", userId := "u1", name := "W",
      triggers := none,
      actions := some [.vObj [("type", .vStr "teleport"), ("config", .vObj [])]] }
    (.vObj [])
    (initialContext
      { id := "w1", userId := "u1", name := "W",
        triggers := none,
        actions := some [.vObj [("type", .vStr "teleport"), ("config", .vObj [])]] }
      (.vObj []))
    (initialContext
      { id := "w1", userId := "u1", name := "W",
        triggers := none,
        actions := some [.vObj [("type", .vStr "teleport"), ("config", .vObj [])]] }
      (.vObj []))
    [] (.vObj [("type", .vStr "teleport"), ("config", .vObj [])]) [] []
    rfl rfl rfl (by intro hh; cases hh) (by intro hh; cases hh)
    (by
      intro s hs
      have hcomp : jsProp (substituteVariables
          (.vObj [("type", .vStr "teleport"), ("config", .vObj [])])
          (contextToValue (initialContext
            { id := "w1", userId := "u1", name := "W",
              triggers := none,
              actions := some [.vObj [("type", .vStr "teleport"), ("config", .vObj [])]] }
            (.vObj [])))) "type" = Value.vStr "teleport" := rfl
      rw [hcomp] at hs
      injection hs with hs'
      rw [← hs']
      decide)
  exact ⟨h.1, h.2.1, h.2.2⟩

/-- C10: with `configuration.triggers` absent or empty the engine performs
no trigger validation — the run is the same as with no triggers at all —
and when `configuration.actions` is also absent or empty the run completes
with the empty step-results mapping as both output and returned data, with
no dispatches at all. -/
theorem spec_c10_empty_configuration (handlers : HandlerOracle) (eid : String)
    (wf : Workflow) (td : Value) :
    (wf.triggers = none ∨ wf.triggers = some []) →
    (executeWorkflow handlers eid wf td =
      executeWorkflow handlers eid
        { id := wf.id, userId := wf.userId, name := wf.name,
          triggers := none, actions := wf.actions } td) ∧
    ((wf.actions = none ∨ wf.actions = some []) →
      (executeWorkflow handlers eid wf td).success = true ∧
      (executeWorkflow handlers eid wf td).data = some (.vObj []) ∧
      (executeWorkflow handlers eid wf td).error = none ∧
      (executeWorkflow handlers eid wf td).finalContext.stepResults = [] ∧
      (finalRecord (executeWorkflow handlers eid wf td).events).status = "completed" ∧
      (finalRecord (executeWorkflow handlers eid wf td).events).output = some (.vObj []) ∧
      (finalRecord (executeWorkflow handlers eid wf td).events).endTimeSet = true ∧
      (∀ idx a o, EngineEvent.dispatched idx a o ∈
        (executeWorkflow handlers eid wf td).events → False)) := by
  intro htr
  have h1 : triggerListOf wf = [] := by
    rcases htr with h | h <;> rw [triggerListOf, h] <;> rfl
  have htrig : runTriggers (initialContext wf td) (triggerListOf wf) =
      .ok (initialContext wf td) := by
    rw [h1]; rfl
  constructor
  · have h2 : triggerListOf
        { id := wf.id, userId := wf.userId, name := wf.name,
          triggers := none, actions := wf.actions } = [] := rfl
    simp only [executeWorkflow, h1, h2]
    rfl
  · intro hac
    have h3 : actionListOf wf = [] := by
      rcases hac with h | h <;> rw [actionListOf, h] <;> rfl
    have hact : runActions handlers (initialContext wf td) 0 (actionListOf wf) =
        .ok (initialContext wf td) [] := by
      rw [h3]; rfl
    have hout := executeWorkflow_eq_ok eid htrig hact
    rw [hout]
    have hrec := finalRecord_run wf eid td "completed" none
      (some (.vObj (initialContext wf td).stepResults)) [] (by simp)
    have hsteps : (initialContext wf td).stepResults = [] := rfl
    refine ⟨rfl, by rw [hsteps], rfl, hsteps, ?_, ?_, ?_, ?_⟩
    · rw [show (EngineEvent.createExecution wf.id td :: [] ++
        updateExecutionStatus wf eid "completed" none
          (some (.vObj (initialContext wf td).stepResults))) =
        (EngineEvent.createExecution wf.id td ::
          ([] : List EngineEvent) ++ updateExecutionStatus wf eid "completed" none
            (some (.vObj (initialContext wf td).stepResults))) from rfl, hrec]
    · rw [show (EngineEvent.createExecution wf.id td :: [] ++
        updateExecutionStatus wf eid "completed" none
          (some (.vObj (initialContext wf td).stepResults))) =
        (EngineEvent.createExecution wf.id td ::
          ([] : List EngineEvent) ++ updateExecutionStatus wf eid "completed" none
            (some (.vObj (initialContext wf td).stepResults))) from rfl, hrec, hsteps]
    · rw [show (EngineEvent.createExecution wf.id td :: [] ++
        updateExecutionStatus wf eid "completed" none
          (some (.vObj (initialContext wf td).stepResults))) =
        (EngineEvent.createExecution wf.id td ::
          ([] : List EngineEvent) ++ updateExecutionStatus wf eid "completed" none
            (some (.vObj (initialContext wf td).stepResults))) from rfl, hrec]
    · intro idx a o hmem
      simp only [updateExecutionStatus] at hmem
      rw [if_neg (by decide : ¬("completed" = "failed"))] at hmem
      simp at hmem

/-- Witness for C10: a workflow with no triggers and an empty action list
completes with the empty mapping. -/
theorem spec_c10_witness :
    (executeWorkflow (fun _ _ _ => .fault none) "exec2"
      { id := "w2", userId := "u2", name := "W2", triggers := none, actions := some [] }
      (.vStr "in")).success = true ∧
    (executeWorkflow (fun _ _ _ => .fault none) "exec2"
      { id := "w2", userId := "u2", name := "W2", triggers := none, actions := some [] }
      (.vStr "in")).data = some (.vObj []) ∧
    (finalRecord (executeWorkflow (fun _ _ _ => .fault none) "exec2"
      { id := "w2", userId := "u2", name := "W2", triggers := none, actions := some [] }
      (.vStr "in")).events).status = "completed" := by
  have h := (spec_c10_empty_configuration (fun _ _ _ => .fault none) "exec2"
    { id := "w2", userId := "u2", name := "W2", triggers := none, actions := some [] }
    (.vStr "in") (Or.inl rfl)).2 (Or.inr rfl)
  exact ⟨h.1, h.2.1, h.2.2.2.2.1⟩

/-- C5: the four recognized trigger types validate successfully with the
raw trigger data; any other type fails validation with the unknown-type
error; and the first failing trigger fails the run with exactly that error
while zero actions execute. -/
theorem spec_c5_trigger_validation :
    (∀ (t : Value) (ctx : WorkflowContext) (s : String),
      jsProp t "type" = .vStr s →
      s ∈ (["webhook", "manual", "email", "schedule"] : List String) →
      validateTrigger t ctx =
        .ok { success := true, data := ctx.triggerData, error := none }) ∧
    (∀ (t : Value) (ctx : WorkflowContext),
      t ≠ .vNull → t ≠ .vUndef →
      (∀ s, jsProp t "type" = .vStr s →
        s ∉ (["webhook", "manual", "email", "schedule"] : List String)) →
      validateTrigger t ctx =
        .ok { success := false, data := .vUndef,
              error := some ("Unknown trigger type: " ++ jsString (jsProp t "type")) }) ∧
    (∀ (handlers : HandlerOracle) (eid : String) (wf : Workflow) (td : Value)
      (pre : List Value) (bad : Value) (post : List Value),
      triggerListOf wf = pre ++ bad :: post →
      (∀ t ∈ pre, ∃ s, jsProp t "type" = .vStr s ∧
        s ∈ (["webhook", "manual", "email", "schedule"] : List String)) →
      bad ≠ .vNull → bad ≠ .vUndef →
      (∀ s, jsProp bad "type" = .vStr s →
        s ∉ (["webhook", "manual", "email", "schedule"] : List String)) →
      (executeWorkflow handlers eid wf td).success = false ∧
      (executeWorkflow handlers eid wf td).error =
        some ("Unknown trigger type: " ++ jsString (jsProp bad "type")) ∧
      (finalRecord (executeWorkflow handlers eid wf td).events).status = "failed" ∧
      (finalRecord (executeWorkflow handlers eid wf td).events).error =
        some ("Unknown trigger type: " ++ jsString (jsProp bad "type")) ∧
      (∀ idx a o, EngineEvent.dispatched idx a o ∈
        (executeWorkflow handlers eid wf td).events → False)) := by
  refine ⟨fun t ctx s hty hs => validateTrigger_recognized ctx hty hs,
    fun t ctx hnn hnu hty => validateTrigger_unknown ctx hnn hnu hty, ?_⟩
  intro handlers eid wf td pre bad post hsplit hpre hnn hnu hty
  obtain ⟨c, hok, hcd⟩ := runTriggers_recognized_ok pre (initialContext wf td) hpre
  have hinv : runTriggers (initialContext wf td) (triggerListOf wf) =
      .invalid (some ("Unknown trigger type: " ++ jsString (jsProp bad "type"))) c := by
    rw [hsplit, runTriggers_append_ok pre hok (bad :: post), runTriggers_cons,
      validateTrigger_unknown c hnn hnu hty]
    rfl
  have hout := executeWorkflow_eq_invalid handlers eid hinv
  rw [hout]
  have hshape : (EngineEvent.createExecution wf.id td ::
      updateExecutionStatus wf eid "failed"
        (some ("Unknown trigger type: " ++ jsString (jsProp bad "type"))) none) =
      (EngineEvent.createExecution wf.id td :: ([] : List EngineEvent) ++
        updateExecutionStatus wf eid "failed"
          (some ("Unknown trigger type: " ++ jsString (jsProp bad "type"))) none) := rfl
  have hrec := finalRecord_run wf eid td "failed"
    (some ("Unknown trigger type: " ++ jsString (jsProp bad "type"))) none
    [] (by simp)
  refine ⟨rfl, rfl, ?_, ?_, ?_⟩
  · rw [hshape, hrec]
  · rw [hshape, hrec]
  · intro idx a o hmem
    simp only [updateExecutionStatus] at hmem
    simp at hmem

/-- Witness for C5: a `carrier_pigeon` trigger after a valid webhook trigger
fails the run with the unknown-type message and no action runs. -/
theorem spec_c5_witness :
    (executeWorkflow (fun _ _ _ => .fault none) "exec3"
      { id := "w3", userId := "u3", name := "W3",
        triggers := some [.vObj [("type", .vStr "webhook")],
          .vObj [("type", .vStr "carrier_pigeon")]],
        actions := some [.vObj [("type", .vStr "delay"), ("config", .vObj [])]] }
      (.vObj [])).success = false ∧
    (executeWorkflow (fun _ _ _ => .fault none) "exec3"
      { id := "w3", userId := "u3", name := "W3",
        triggers := some [.vObj [("type", .vStr "webhook")],
          .vObj [("type", .vStr "carrier_pigeon")]],
        actions := some [.vObj [("type", .vStr "delay"), ("config", .vObj [])]] }
      (.vObj [])).error =
      some ("Unknown trigger type: " ++ jsString (jsProp
        (.vObj [("type", .vStr "carrier_pigeon")]) "type")) ∧
    (finalRecord (executeWorkflow (fun _ _ _ => .fault none) "exec3"
      { id := "w3", userId := "u3", name := "W3",
        triggers := some [.vObj [("type", .vStr "webhook")],
          .vObj [("type", .vStr "carrier_pigeon")]],
        actions := some [.vObj [("type", .vStr "delay"), ("config", .vObj [])]] }
      (.vObj [])).events).status = "failed" := by
  have h := spec_c5_trigger_validation.2.2 (fun _ _ _ => .fault none) "exec3"
    { id := "w3", userId := "u3", name := "W3",
      triggers := some [.vObj [("type", .vStr "webhook")],
        .vObj [("type", .vStr "carrier_pigeon")]],
      actions := some [.vObj [("type", .vStr "delay"), ("config", .vObj [])]] }
    (.vObj []) [.vObj [("type", .vStr "webhook")]]
    (.vObj [("type", .vStr "carrier_pigeon")]) []
    rfl
    (by
      intro t ht
      rcases List.mem_singleton.mp ht with rfl
      exact ⟨"webhook", rfl, by decide⟩)
    (by intro hh; cases hh) (by intro hh; cases hh)
    (by
      intro s hs
      have hcomp : jsProp (Value.vObj [("type", .vStr "carrier_pigeon")]) "type" =
          Value.vStr "carrier_pigeon" := rfl
      rw [hcomp] at hs
      injection hs with hs'
      rw [← hs']
      decide)
  exact ⟨h.1, h.2.1, h.2.2.1⟩

/-- C4: a run that ends `failed` synchronously creates exactly one
Notification of type `workflow_error`, addressed to the workflow's owner,
whose message interpolates the workflow's name and the stored error and
whose metadata carries this run's execution id and the workflow's id; a run
that ends `completed` creates no notification at this layer. -/
theorem spec_c4_failure_notification (handlers : HandlerOracle) (eid : String)
    (wf : Workflow) (td : Value) :
    ((finalRecord (executeWorkflow handlers eid wf td).events).status = "failed" →
      notificationEvents (executeWorkflow handlers eid wf td).events =
        [EngineEvent.createNotification wf.userId "workflow_error"
          ("Workflow \"" ++ wf.name ++ "\" failed: " ++
            optStrOrNull (finalRecord (executeWorkflow handlers eid wf td).events).error)
          wf.id eid]) ∧
    ((finalRecord (executeWorkflow handlers eid wf td).events).status = "completed" →
      notificationEvents (executeWorkflow handlers eid wf td).events = []) := by
  cases ht : runTriggers (initialContext wf td) (triggerListOf wf) with
  | invalid err ctx =>
    rw [executeWorkflow_eq_invalid handlers eid ht]
    have hshape : (EngineEvent.createExecution wf.id td ::
        updateExecutionStatus wf eid "failed" err none) =
        (EngineEvent.createExecution wf.id td :: ([] : List EngineEvent) ++
          updateExecutionStatus wf eid "failed" err none) := rfl
    rw [hshape, finalRecord_run wf eid td "failed" err none [] (by simp),
      trace_notifs wf eid td "failed" err none [] (by simp)]
    exact ⟨fun _ => by rw [if_pos rfl], fun hc => by simp at hc⟩
  | thrown m ctx =>
    rw [executeWorkflow_eq_trigThrown handlers eid ht]
    have hshape : (EngineEvent.createExecution wf.id td ::
        updateExecutionStatus wf eid "failed"
          (some (match m with | some msg => msg | none => "Unknown workflow error")) none) =
        (EngineEvent.createExecution wf.id td :: ([] : List EngineEvent) ++
          updateExecutionStatus wf eid "failed"
            (some (match m with | some msg => msg | none => "Unknown workflow error")) none) := rfl
    rw [hshape,
      finalRecord_run wf eid td "failed" _ none [] (by simp),
      trace_notifs wf eid td "failed" _ none [] (by simp)]
    exact ⟨fun _ => by rw [if_pos rfl], fun hc => by simp at hc⟩
  | ok tc =>
    cases ha : runActions handlers tc 0 (actionListOf wf) with
    | ok c evs =>
      have hmid : ∀ e ∈ evs, ∃ idx a o, e = EngineEvent.dispatched idx a o := by
        have h := runActions_events_dispatched handlers (actionListOf wf) tc 0
        rw [ha] at h
        exact h
      rw [executeWorkflow_eq_ok eid ht ha]
      rw [show (EngineEvent.createExecution wf.id td :: evs ++
          updateExecutionStatus wf eid "completed" none (some (.vObj c.stepResults))) =
          (EngineEvent.createExecution wf.id td :: evs ++
            updateExecutionStatus wf eid "completed" none (some (.vObj c.stepResults)))
          from rfl,
        finalRecord_run wf eid td "completed" none (some (.vObj c.stepResults)) _ hmid,
        trace_notifs wf eid td "completed" none (some (.vObj c.stepResults)) _ hmid]
      exact ⟨fun hc => by simp at hc, fun _ => by rw [if_neg (by decide)]⟩
    | failed i err c evs =>
      have hmid : ∀ e ∈ evs, ∃ idx a o, e = EngineEvent.dispatched idx a o := by
        have h := runActions_events_dispatched handlers (actionListOf wf) tc 0
        rw [ha] at h
        exact h
      rw [executeWorkflow_eq_failed eid ht ha]
      rw [finalRecord_run wf eid td "failed" err none _ hmid,
        trace_notifs wf eid td "failed" err none _ hmid]
      exact ⟨fun _ => by rw [if_pos rfl], fun hc => by simp at hc⟩
    | thrown i m c evs =>
      have hmid : ∀ e ∈ evs, ∃ idx a o, e = EngineEvent.dispatched idx a o := by
        have h := runActions_events_dispatched handlers (actionListOf wf) tc 0
        rw [ha] at h
        exact h
      rw [executeWorkflow_eq_actThrown eid ht ha]
      rw [finalRecord_run wf eid td "failed" _ none _ hmid,
        trace_notifs wf eid td "failed" _ none _ hmid]
      exact ⟨fun _ => by rw [if_pos rfl], fun hc => by simp at hc⟩

/-- Witness for C4: a run failing on an unknown trigger produces exactly
its one `workflow_error` notification carrying the run and workflow ids. -/
theorem spec_c4_witness :
    notificationEvents (executeWorkflow (fun _ _ _ => .fault none) "exec4"
      { id := "w4", userId := "u4", name := "W4",
        triggers := some [.vObj [("type", .vStr "carrier_pigeon")]],
        actions := none }
      (.vObj [])).events =
      [EngineEvent.createNotification "u4" "workflow_error"
        ("Workflow \"" ++ "W4" ++ "\" failed: " ++
          optStrOrNull (finalRecord (executeWorkflow (fun _ _ _ => .fault none) "exec4"
            { id := "w4", userId := "u4", name := "W4",
              triggers := some [.vObj [("type", .vStr "carrier_pigeon")]],
              actions := none }
            (.vObj [])).events).error)
        "w4" "exec4"] := by
  exact (spec_c4_failure_notification (fun _ _ _ => .fault none) "exec4"
    { id := "w4", userId := "u4", name := "W4",
      triggers := some [.vObj [("type", .vStr "carrier_pigeon")]],
      actions := none }
    (.vObj [])).1 (by rfl)

/-- A failed trigger validation always carries an error message. -/
theorem validateTrigger_failed_error {t : Value} {ctx : WorkflowContext}
    {r : ActionResult} (h : validateTrigger t ctx = .ok r) (hs : r.success = false) :
    ∃ e, r.error = some e := by
  cases t with
  | vNull => simp [validateTrigger] at h
  | vUndef => simp [validateTrigger] at h
  | vBool b => injection h with h'; rw [← h']; exact ⟨_, rfl⟩
  | vNum n => injection h with h'; rw [← h']; exact ⟨_, rfl⟩
  | vStr s2 => injection h with h'; rw [← h']; exact ⟨_, rfl⟩
  | vArr elems => injection h with h'; rw [← h']; exact ⟨_, rfl⟩
  | vObj fields =>
    have hred : validateTrigger (Value.vObj fields) ctx =
        match jsProp (Value.vObj fields) "type" with
        | .vStr "webhook" => .ok { success := true, data := ctx.triggerData, error := none }
        | .vStr "manual" => .ok { success := true, data := ctx.triggerData, error := none }
        | .vStr "email" => .ok { success := true, data := ctx.triggerData, error := none }
        | .vStr "schedule" => .ok { success := true, data := ctx.triggerData, error := none }
        | tv => .ok { success := false, data := .vUndef,
                      error := some ("Unknown trigger type: " ++ jsString tv) } := rfl
    rw [hred] at h
    split at h <;> (injection h with h'; rw [← h'] at hs ⊢)
    · simp at hs
    · simp at hs
    · simp at hs
    · simp at hs
    · exact ⟨_, rfl⟩

/-- A trigger-phase rejection always carries an error message. -/
theorem runTriggers_invalid_error :
    ∀ (ts : List Value) {ctx : WorkflowContext} {err : Option String}
      {c : WorkflowContext}, runTriggers ctx ts = .invalid err c → ∃ e, err = some e := by
  intro ts
  induction ts with
  | nil => intro ctx err c h; rw [runTriggers] at h; exact absurd h (by simp)
  | cons t rest ih =>
    intro ctx err c h
    rw [runTriggers_cons] at h
    cases hv : validateTrigger t ctx with
    | fault m => rw [hv] at h; exact absurd h (by simp)
    | ok r =>
      rw [hv] at h
      dsimp only at h
      by_cases hs : r.success
      · rw [if_pos hs] at h
        exact ih h
      · rw [if_neg hs] at h
        injection h with h1 h2
        obtain ⟨e, he⟩ := validateTrigger_failed_error hv (by simpa using hs)
        rw [← h1, he]
        exact ⟨e, rfl⟩

/-- Under the handler contract — every declared handler failure carries an
error message — a declared dispatch failure always carries one too. -/
theorem executeAction_failed_error {handlers : HandlerOracle} {a : Value}
    {ctx : WorkflowContext} {r : ActionResult}
    (hcontract : ∀ t cfg c' r', handlers t cfg c' = .ok r' →
      r'.success = false → r'.error ≠ none)
    (h : executeAction handlers a ctx = .ok r) (hs : r.success = false) :
    r.error ≠ none := by
  cases a with
  | vNull => simp [executeAction] at h
  | vUndef => simp [executeAction] at h
  | vBool b => injection h with h'; rw [← h']; simp
  | vNum n => injection h with h'; rw [← h']; simp
  | vStr s2 => injection h with h'; rw [← h']; simp
  | vArr elems => injection h with h'; rw [← h']; simp
  | vObj fields =>
    have hred : executeAction handlers (Value.vObj fields) ctx =
        match jsProp (Value.vObj fields) "type" with
        | .vStr t =>
          if t ∈ knownActionTypes then
            handlers t (jsProp (Value.vObj fields) "config") ctx
          else .ok { success := false, data := .vUndef,
                     error := some ("Unknown action type: " ++ t) }
        | tv => .ok { success := false, data := .vUndef,
                      error := some ("Unknown action type: " ++ jsString tv) } := rfl
    rw [hred] at h
    cases hj : jsProp (Value.vObj fields) "type" with
    | vStr s =>
      rw [hj] at h
      dsimp only at h
      by_cases hk : s ∈ knownActionTypes
      · rw [if_pos hk] at h
        exact hcontract s _ ctx r h hs
      · rw [if_neg hk] at h
        injection h with h'
        rw [← h']
        simp
    | vUndef => rw [hj] at h; injection h with h'; rw [← h']; simp
    | vNull => rw [hj] at h; injection h with h'; rw [← h']; simp
    | vBool b => rw [hj] at h; injection h with h'; rw [← h']; simp
    | vNum n => rw [hj] at h; injection h with h'; rw [← h']; simp
    | vArr elems => rw [hj] at h; injection h with h'; rw [← h']; simp
    | vObj fields2 => rw [hj] at h; injection h with h'; rw [← h']; simp

/-- C3: every run reaches exactly one of the terminal statuses `completed`
or `failed` through exactly one terminal update — the last Execution-row
write of the trace — which always sets `endTime`; `output` is non-null iff
the run completed, and then equals the final step results; `error` is
non-null iff the run failed.  The handler contract hypothesis reflects the
repository's handlers, which always return an error string on failure. -/
theorem spec_c3_terminal_state (handlers : HandlerOracle) (eid : String)
    (wf : Workflow) (td : Value)
    (hcontract : ∀ t cfg c' r', handlers t cfg c' = .ok r' →
      r'.success = false → r'.error ≠ none) :
    ∃ st err outp,
      (executeWorkflow handlers eid wf td).events.filter isExecutionWrite =
        [EngineEvent.createExecution wf.id td, EngineEvent.updateExecution st err outp] ∧
      (executeWorkflow handlers eid wf td).events.filter isUpdateEvent =
        [EngineEvent.updateExecution st err outp] ∧
      (st = "completed" ∨ st = "failed") ∧
      (finalRecord (executeWorkflow handlers eid wf td).events).status = st ∧
      (finalRecord (executeWorkflow handlers eid wf td).events).endTimeSet = true ∧
      (finalRecord (executeWorkflow handlers eid wf td).events).error = err ∧
      (finalRecord (executeWorkflow handlers eid wf td).events).output = outp ∧
      (err ≠ none ↔ st = "failed") ∧
      (outp ≠ none ↔ st = "completed") ∧
      (st = "completed" →
        outp = some (.vObj (executeWorkflow handlers eid wf td).finalContext.stepResults)) := by
  cases ht : runTriggers (initialContext wf td) (triggerListOf wf) with
  | invalid err ctx =>
    obtain ⟨e, rfl⟩ := runTriggers_invalid_error _ ht
    refine ⟨"failed", some e, none, ?_⟩
    rw [executeWorkflow_eq_invalid handlers eid ht]
    have hshape : (EngineEvent.createExecution wf.id td ::
        updateExecutionStatus wf eid "failed" (some e) none) =
        (EngineEvent.createExecution wf.id td :: ([] : List EngineEvent) ++
          updateExecutionStatus wf eid "failed" (some e) none) := rfl
    rw [hshape, finalRecord_run wf eid td "failed" (some e) none [] (by simp),
      trace_writes wf eid td "failed" (some e) none [] (by simp),
      trace_updates wf eid td "failed" (some e) none [] (by simp)]
    refine ⟨rfl, rfl, Or.inr rfl, rfl, rfl, rfl, rfl, by simp, by simp, by simp⟩
  | thrown m ctx =>
    refine ⟨"failed",
      some (match m with | some msg => msg | none => "Unknown workflow error"), none, ?_⟩
    rw [executeWorkflow_eq_trigThrown handlers eid ht]
    have hshape : (EngineEvent.createExecution wf.id td ::
        updateExecutionStatus wf eid "failed"
          (some (match m with | some msg => msg | none => "Unknown workflow error")) none) =
        (EngineEvent.createExecution wf.id td :: ([] : List EngineEvent) ++
          updateExecutionStatus wf eid "failed"
            (some (match m with | some msg => msg | none => "Unknown workflow error")) none) := rfl
    rw [hshape, finalRecord_run wf eid td "failed" _ none [] (by simp),
      trace_writes wf eid td "failed" _ none [] (by simp),
      trace_updates wf eid td "failed" _ none [] (by simp)]
    refine ⟨rfl, rfl, Or.inr rfl, rfl, rfl, rfl, rfl, by simp, by simp, by simp⟩
  | ok tc =>
    cases ha : runActions handlers tc 0 (actionListOf wf) with
    | ok c evs =>
      have hmid : ∀ e ∈ evs, ∃ idx a o, e = EngineEvent.dispatched idx a o := by
        have h := runActions_events_dispatched handlers (actionListOf wf) tc 0
        rw [ha] at h
        exact h
      refine ⟨"completed", none, some (.vObj c.stepResults), ?_⟩
      rw [executeWorkflow_eq_ok eid ht ha]
      rw [finalRecord_run wf eid td "completed" none (some (.vObj c.stepResults)) _ hmid,
        trace_writes wf eid td "completed" none (some (.vObj c.stepResults)) _ hmid,
        trace_updates wf eid td "completed" none (some (.vObj c.stepResults)) _ hmid]
      refine ⟨rfl, rfl, Or.inl rfl, rfl, rfl, rfl, rfl, by simp, by simp, fun _ => rfl⟩
    | failed i err c evs =>
      have hmid : ∀ e ∈ evs, ∃ idx a o, e = EngineEvent.dispatched idx a o := by
        have h := runActions_events_dispatched handlers (actionListOf wf) tc 0
        rw [ha] at h
        exact h
      obtain ⟨l1, a, l2, r, evs', hacts, hj, hok, hda, hsucc, herr, hevs⟩ :=
        runActions_failed_decomp _ ha
      have herrne : err ≠ none := by
        rw [herr]
        exact executeAction_failed_error hcontract hda hsucc
      obtain ⟨e, rfl⟩ := Option.ne_none_iff_exists'.mp herrne
      refine ⟨"failed", some e, none, ?_⟩
      rw [executeWorkflow_eq_failed eid ht ha]
      rw [finalRecord_run wf eid td "failed" (some e) none _ hmid,
        trace_writes wf eid td "failed" (some e) none _ hmid,
        trace_updates wf eid td "failed" (some e) none _ hmid]
      refine ⟨rfl, rfl, Or.inr rfl, rfl, rfl, rfl, rfl, by simp, by simp, by simp⟩
    | thrown i m c evs =>
      have hmid : ∀ e ∈ evs, ∃ idx a o, e = EngineEvent.dispatched idx a o := by
        have h := runActions_events_dispatched handlers (actionListOf wf) tc 0
        rw [ha] at h
        exact h
      cases m with
      | some msg =>
        refine ⟨"failed", some ("Action " ++ natRepr (i + 1) ++ " error: " ++ msg), none, ?_⟩
        rw [executeWorkflow_eq_actThrown eid ht ha]
        rw [finalRecord_run wf eid td "failed" _ none _ hmid,
          trace_writes wf eid td "failed" _ none _ hmid,
          trace_updates wf eid td "failed" _ none _ hmid]
        refine ⟨rfl, rfl, Or.inr rfl, rfl, rfl, rfl, rfl, by simp, by simp, by simp⟩
      | none =>
        refine ⟨"failed", some ("Action " ++ natRepr (i + 1) ++ " error: " ++ "Unknown error"),
          none, ?_⟩
        rw [executeWorkflow_eq_actThrown eid ht ha]
        rw [finalRecord_run wf eid td "failed" _ none _ hmid,
          trace_writes wf eid td "failed" _ none _ hmid,
          trace_updates wf eid td "failed" _ none _ hmid]
        refine ⟨rfl, rfl, Or.inr rfl, rfl, rfl, rfl, rfl, by simp, by simp, by simp⟩

/-- Witness for C3: a concrete completed run satisfies the terminal-state
contract; the handler contract holds for a handler that always succeeds. -/
theorem spec_c3_witness :
    ∃ st err outp,
      (executeWorkflow (fun _ _ _ => .ok { success := true, data := .vNull, error := none })
        "exec5"
        { id := "w5", userId := "u5", name := "W5",
          triggers := some [.vObj [("type", .vStr "manual")]],
          actions := some [.vObj [("type", .vStr "delay"), ("config", .vObj [])]] }
        (.vObj [])).events.filter isExecutionWrite =
        [EngineEvent.createExecution "w5" (.vObj []),
          EngineEvent.updateExecution st err outp] ∧
      (executeWorkflow (fun _ _ _ => .ok { success := true, data := .vNull, error := none })
        "exec5"
        { id := "w5", userId := "u5", name := "W5",
          triggers := some [.vObj [("type", .vStr "manual")]],
          actions := some [.vObj [("type", .vStr "delay"), ("config", .vObj [])]] }
        (.vObj [])).events.filter isUpdateEvent =
        [EngineEvent.updateExecution st err outp] ∧
      (st = "completed" ∨ st = "failed") ∧
      (finalRecord (executeWorkflow
        (fun _ _ _ => .ok { success := true, data := .vNull, error := none }) "exec5"
        { id := "w5", userId := "u5", name := "W5",
          triggers := some [.vObj [("type", .vStr "manual")]],
          actions := some [.vObj [("type", .vStr "delay"), ("config", .vObj [])]] }
        (.vObj [])).events).status = st ∧
      (finalRecord (executeWorkflow
        (fun _ _ _ => .ok { success := true, data := .vNull, error := none }) "exec5"
        { id := "w5", userId := "u5", name := "W5",
          triggers := some [.vObj [("type", .vStr "manual")]],
          actions := some [.vObj [("type", .vStr "delay"), ("config", .vObj [])]] }
        (.vObj [])).events).endTimeSet = true ∧
      (finalRecord (executeWorkflow
        (fun _ _ _ => .ok { success := true, data := .vNull, error := none }) "exec5"
        { id := "w5", userId := "u5", name := "W5",
          triggers := some [.vObj [("type", .vStr "manual")]],
          actions := some [.vObj [("type", .vStr "delay"), ("config", .vObj [])]] }
        (.vObj [])).events).error = err ∧
      (finalRecord (executeWorkflow
        (fun _ _ _ => .ok { success := true, data := .vNull, error := none }) "exec5"
        { id := "w5", userId := "u5", name := "W5",
          triggers := some [.vObj [("type", .vStr "manual")]],
          actions := some [.vObj [("type", .vStr "delay"), ("config", .vObj [])]] }
        (.vObj [])).events).output = outp ∧
      (err ≠ none ↔ st = "failed") ∧
      (outp ≠ none ↔ st = "completed") ∧
      (st = "completed" →
        outp = some (.vObj (executeWorkflow
          (fun _ _ _ => .ok { success := true, data := .vNull, error := none }) "exec5"
          { id := "w5", userId := "u5", name := "W5",
            triggers := some [.vObj [("type", .vStr "manual")]],
            actions := some [.vObj [("type", .vStr "delay"), ("config", .vObj [])]] }
          (.vObj [])).finalContext.stepResults)) := by
  apply spec_c3_terminal_state
  intro t cfg c' r' hr' hsucc
  injection hr' with h'
  rw [← h'] at hsucc
  simp at hsucc

/-- Trigger step keys never collide with action step keys. -/
theorem trigger_key_ne_action_key (x y : String) :
    "trigger_" ++ x ≠ "action_" ++ y := by
  intro h
  have hd := congrArg String.data h
  rw [String.data_append, String.data_append] at hd
  have h1 : ("trigger_" : String).data = ['t', 'r', 'i', 'g', 'g', 'e', 'r', '_'] := rfl
  have h2 : ("action_" : String).data = ['a', 'c', 't', 'i', 'o', 'n', '_'] := rfl
  rw [h1, h2] at hd
  simp at hd

/-- The seeded `trigger` variable never collides with an action result
variable. -/
theorem trigger_var_ne_action_var (y : String) :
    "trigger" ≠ "action_" ++ y ++ "_result" := by
  intro h
  have hd := congrArg String.data h
  rw [String.data_append, String.data_append] at hd
  have h1 : ("trigger" : String).data = ['t', 'r', 'i', 'g', 'g', 'e', 'r'] := rfl
  have h2 : ("action_" : String).data = ['a', 'c', 't', 'i', 'o', 'n', '_'] := rfl
  rw [h1, h2] at hd
  simp at hd

/-- After a clean trigger phase from the engine's seed context, no action
step key or action result variable is present yet. -/
theorem tc_freshness {wf : Workflow} {td : Value} {tc : WorkflowContext}
    (ht : runTriggers (initialContext wf td) (triggerListOf wf) = .ok tc) :
    (∀ j, 0 ≤ j → ∀ p ∈ tc.stepResults, p.1 ≠ "action_" ++ natRepr j) ∧
    (∀ j, 0 ≤ j → ∀ p ∈ tc.«variables», p.1 ≠ "action_" ++ natRepr j ++ "_result") := by
  have hall : ∀ p ∈ (initialContext wf td).stepResults, p.2 = (initialContext wf td).triggerData := by
    intro p hp
    simp [initialContext] at hp
  obtain ⟨hw, hu, htd, hv, hpres, hall2, hsrc, hrec⟩ :=
    runTriggers_ok_props (triggerListOf wf) ht hall
  constructor
  · intro j _ p hp
    rcases hsrc p hp with hp' | hp'
    · simp [initialContext] at hp'
    · obtain ⟨t, _, hk⟩ := hp'
      rw [hk]
      exact trigger_key_ne_action_key _ _
  · intro j _ p hp
    rw [hv] at hp
    have hp2 : p ∈ [("trigger", td)] := by
      simpa [initialContext] using hp
    rcases List.mem_singleton.mp hp2 with rfl
    exact trigger_var_ne_action_var _

/-- C1 (amended): when the dispatched action at index `i` returns a declared
failure carrying error `e`, the run aborts — the caller gets success `false`
with the prefixed message `Action <i+1> failed: <e>` while the Execution row
is stored `failed` with the raw handler error `e` (not the prefixed
message), and no action with index greater than `i` is dispatched; when the
dispatch at index `i` throws with message `msg`, both the caller's error and
the stored error are the prefixed `Action <i+1> error: <msg>`, again with no
later dispatch. -/
theorem spec_c1_action_failure (handlers : HandlerOracle) (eid : String)
    (wf : Workflow) (td : Value) :
    (∀ i a r e,
      EngineEvent.dispatched i a (.ok r) ∈ (executeWorkflow handlers eid wf td).events →
      r.success = false → r.error = some e →
      (executeWorkflow handlers eid wf td).success = false ∧
      (executeWorkflow handlers eid wf td).error =
        some ("Action " ++ natRepr (i + 1) ++ " failed: " ++ e) ∧
      (finalRecord (executeWorkflow handlers eid wf td).events).status = "failed" ∧
      (finalRecord (executeWorkflow handlers eid wf td).events).error = some e ∧
      (∀ j b o, EngineEvent.dispatched j b o ∈ (executeWorkflow handlers eid wf td).events →
        j ≤ i)) ∧
    (∀ i a msg,
      EngineEvent.dispatched i a (.fault (some msg)) ∈
        (executeWorkflow handlers eid wf td).events →
      (executeWorkflow handlers eid wf td).success = false ∧
      (executeWorkflow handlers eid wf td).error =
        some ("Action " ++ natRepr (i + 1) ++ " error: " ++ msg) ∧
      (finalRecord (executeWorkflow handlers eid wf td).events).status = "failed" ∧
      (finalRecord (executeWorkflow handlers eid wf td).events).error =
        some ("Action " ++ natRepr (i + 1) ++ " error: " ++ msg) ∧
      (∀ j b o, EngineEvent.dispatched j b o ∈ (executeWorkflow handlers eid wf td).events →
        j ≤ i)) := by
  constructor
  · intro i a r e hmem hs he
    cases ht : runTriggers (initialContext wf td) (triggerListOf wf) with
    | invalid err ctx =>
      rw [executeWorkflow_eq_invalid handlers eid ht] at hmem
      simp [updateExecutionStatus] at hmem
    | thrown m ctx =>
      rw [executeWorkflow_eq_trigThrown handlers eid ht] at hmem
      simp [updateExecutionStatus] at hmem
    | ok tc =>
      obtain ⟨hfs, hfv⟩ := tc_freshness ht
      cases ha : runActions handlers tc 0 (actionListOf wf) with
      | ok c evs =>
        rw [executeWorkflow_eq_ok eid ht ha] at hmem
        obtain ⟨entries, _, _, _, _, _, _, hev⟩ :=
          runActions_ok_shape (actionListOf wf) tc 0 ha hfs hfv
        rw [List.cons_append] at hmem
        rcases List.mem_cons.mp hmem with heq | hmem2
        · cases heq
        · rcases List.mem_append.mp hmem2 with hin | hin
          · obtain ⟨_, _, r2, hor, hrs⟩ := hev i a (.ok r) hin
            injection hor with hor'
            rw [hor', hrs] at hs
            cases hs
          · simp [updateExecutionStatus] at hin
      | failed j2 err c evs =>
        obtain ⟨l1, abad, l2, rbad, evs', hacts, hj, hok, hda, hsucc, herr, hevs⟩ :=
          runActions_failed_decomp _ ha
        obtain ⟨entries, _, _, _, _, _, _, hev'⟩ :=
          runActions_ok_shape l1 tc 0 hok hfs hfv
        have hmidall : ∀ ev ∈ evs, ∃ idx b o, ev = EngineEvent.dispatched idx b o := by
          have h := runActions_events_dispatched handlers (actionListOf wf) tc 0
          rw [ha] at h
          exact h
        rw [executeWorkflow_eq_failed eid ht ha] at hmem ⊢
        rw [List.cons_append] at hmem
        rcases List.mem_cons.mp hmem with heq | hmem2
        · cases heq
        · rcases List.mem_append.mp hmem2 with hin | hin
          · rw [hevs] at hin
            rcases List.mem_append.mp hin with hin' | hin'
            · obtain ⟨_, _, r2, hor, hrs⟩ := hev' i a (.ok r) hin'
              injection hor with hor'
              rw [hor', hrs] at hs
              cases hs
            · rcases List.mem_singleton.mp hin' with heq2
              injection heq2 with hi ha2 ho
              injection ho with hr
              subst hi
              subst hr
              have herre : err = some e := by rw [herr, he]
              subst herre
              refine ⟨rfl, rfl, ?_, ?_, ?_⟩
              · rw [finalRecord_run wf eid td "failed" (some e) none _ hmidall]
              · rw [finalRecord_run wf eid td "failed" (some e) none _ hmidall]
              · intro j b o hj2
                rw [List.cons_append] at hj2
                rcases List.mem_cons.mp hj2 with heq3 | hj3
                · cases heq3
                · rcases List.mem_append.mp hj3 with hj4 | hj4
                  · rw [hevs] at hj4
                    rcases List.mem_append.mp hj4 with hj5 | hj5
                    · obtain ⟨_, hlt, _⟩ := hev' j b o hj5
                      rw [hj]
                      simp at hlt
                      omega
                    · rcases List.mem_singleton.mp hj5 with heq4
                      injection heq4 with hj6
                      omega
                  · simp [updateExecutionStatus] at hj4
          · simp [updateExecutionStatus] at hin
      | thrown j2 m c evs =>
        obtain ⟨l1, abad, l2, evs', hacts, hj, hok, hda, hevs⟩ :=
          runActions_thrown_decomp _ ha
        obtain ⟨entries, _, _, _, _, _, _, hev'⟩ :=
          runActions_ok_shape l1 tc 0 hok hfs hfv
        rw [executeWorkflow_eq_actThrown eid ht ha] at hmem
        rw [List.cons_append] at hmem
        rcases List.mem_cons.mp hmem with heq | hmem2
        · cases heq
        · rcases List.mem_append.mp hmem2 with hin | hin
          · rw [hevs] at hin
            rcases List.mem_append.mp hin with hin' | hin'
            · obtain ⟨_, _, r2, hor, hrs⟩ := hev' i a (.ok r) hin'
              injection hor with hor'
              rw [hor', hrs] at hs
              cases hs
            · rcases List.mem_singleton.mp hin' with heq2
              injection heq2 with hi ha2 ho
              cases ho
          · simp [updateExecutionStatus] at hin
  · intro i a msg hmem
    cases ht : runTriggers (initialContext wf td) (triggerListOf wf) with
    | invalid err ctx =>
      rw [executeWorkflow_eq_invalid handlers eid ht] at hmem
      simp [updateExecutionStatus] at hmem
    | thrown m ctx =>
      rw [executeWorkflow_eq_trigThrown handlers eid ht] at hmem
      simp [updateExecutionStatus] at hmem
    | ok tc =>
      obtain ⟨hfs, hfv⟩ := tc_freshness ht
      cases ha : runActions handlers tc 0 (actionListOf wf) with
      | ok c evs =>
        rw [executeWorkflow_eq_ok eid ht ha] at hmem
        obtain ⟨entries, _, _, _, _, _, _, hev⟩ :=
          runActions_ok_shape (actionListOf wf) tc 0 ha hfs hfv
        rw [List.cons_append] at hmem
        rcases List.mem_cons.mp hmem with heq | hmem2
        · cases heq
        · rcases List.mem_append.mp hmem2 with hin | hin
          · obtain ⟨_, _, r2, hor, _⟩ := hev i a (.fault (some msg)) hin
            cases hor
          · simp [updateExecutionStatus] at hin
      | failed j2 err c evs =>
        obtain ⟨l1, abad, l2, rbad, evs', hacts, hj, hok, hda, hsucc, herr, hevs⟩ :=
          runActions_failed_decomp _ ha
        obtain ⟨entries, _, _, _, _, _, _, hev'⟩ :=
          runActions_ok_shape l1 tc 0 hok hfs hfv
        rw [executeWorkflow_eq_failed eid ht ha] at hmem
        rw [List.cons_append] at hmem
        rcases List.mem_cons.mp hmem with heq | hmem2
        · cases heq
        · rcases List.mem_append.mp hmem2 with hin | hin
          · rw [hevs] at hin
            rcases List.mem_append.mp hin with hin' | hin'
            · obtain ⟨_, _, r2, hor, _⟩ := hev' i a (.fault (some msg)) hin'
              cases hor
            · rcases List.mem_singleton.mp hin' with heq2
              injection heq2 with hi ha2 ho
              cases ho
          · simp [updateExecutionStatus] at hin
      | thrown j2 m c evs =>
        obtain ⟨l1, abad, l2, evs', hacts, hj, hok, hda, hevs⟩ :=
          runActions_thrown_decomp _ ha
        obtain ⟨entries, _, _, _, _, _, _, hev'⟩ :=
          runActions_ok_shape l1 tc 0 hok hfs hfv
        have hmidall : ∀ ev ∈ evs, ∃ idx b o, ev = EngineEvent.dispatched idx b o := by
          have h := runActions_events_dispatched handlers (actionListOf wf) tc 0
          rw [ha] at h
          exact h
        rw [executeWorkflow_eq_actThrown eid ht ha] at hmem ⊢
        rw [List.cons_append] at hmem
        rcases List.mem_cons.mp hmem with heq | hmem2
        · cases heq
        · rcases List.mem_append.mp hmem2 with hin | hin
          · rw [hevs] at hin
            rcases List.mem_append.mp hin with hin' | hin'
            · obtain ⟨_, _, r2, hor, _⟩ := hev' i a (.fault (some msg)) hin'
              cases hor
            · rcases List.mem_singleton.mp hin' with heq2
              injection heq2 with hi ha2 ho
              injection ho with hm
              subst hi
              subst hm
              refine ⟨rfl, rfl, ?_, ?_, ?_⟩
              · rw [finalRecord_run wf eid td "failed" _ none _ hmidall]
              · rw [finalRecord_run wf eid td "failed" _ none _ hmidall]
              · intro j b o hj2
                rw [List.cons_append] at hj2
                rcases List.mem_cons.mp hj2 with heq3 | hj3
                · cases heq3
                · rcases List.mem_append.mp hj3 with hj4 | hj4
                  · rw [hevs] at hj4
                    rcases List.mem_append.mp hj4 with hj5 | hj5
                    · obtain ⟨_, hlt, _⟩ := hev' j b o hj5
                      rw [hj]
                      simp at hlt
                      omega
                    · rcases List.mem_singleton.mp hj5 with heq4
                      injection heq4 with hj6
                      omega
                  · simp [updateExecutionStatus] at hj4
          · simp [updateExecutionStatus] at hin

/-- Counterexample to C1 as stated: in a run whose only action declares
failure with error `boom`, the Execution row stores the raw handler error
`boom`, not the prefixed message `Action 1 failed: boom` the claim asserts;
the prefixed message only goes to the caller. -/
theorem spec_c1_counterexample :
    (finalRecord (executeWorkflow
      (fun _ _ _ => .ok { success := false, data := .vUndef, error := some "boom" })
      "exec6"
      { id := "w6", userId := "u6", name := "W6", triggers := none,
        actions := some [.vObj [("type", .vStr "delay"), ("config", .vObj [])]] }
      (.vObj [])).events).error = some "boom" ∧
    (executeWorkflow
      (fun _ _ _ => .ok { success := false, data := .vUndef, error := some "boom" })
      "exec6"
      { id := "w6", userId := "u6", name := "W6", triggers := none,
        actions := some [.vObj [("type", .vStr "delay"), ("config", .vObj [])]] }
      (.vObj [])).error = some "Action 1 failed: boom" ∧
    ¬ ((finalRecord (executeWorkflow
      (fun _ _ _ => .ok { success := false, data := .vUndef, error := some "boom" })
      "exec6"
      { id := "w6", userId := "u6", name := "W6", triggers := none,
        actions := some [.vObj [("type", .vStr "delay"), ("config", .vObj [])]] }
      (.vObj [])).events).error = some "Action 1 failed: boom") := by
  refine ⟨rfl, rfl, ?_⟩
  intro h
  have h2 : (some "boom" : Option String) = some "Action 1 failed: boom" := by
    rw [← h]
    rfl
  injection h2 with h3
  exact absurd h3 (by decide)

/-- Witness for C1 (amended): the same concrete failing run, with the
declared-failure branch of the theorem applied at its dispatch event. -/
theorem spec_c1_witness :
    (executeWorkflow
      (fun _ _ _ => .ok { success := false, data := .vUndef, error := some "boom" })
      "exec6"
      { id := "w6", userId := "u6", name := "W6", triggers := none,
        actions := some [.vObj [("type", .vStr "delay"), ("config", .vObj [])]] }
      (.vObj [])).success = false ∧
    (executeWorkflow
      (fun _ _ _ => .ok { success := false, data := .vUndef, error := some "boom" })
      "exec6"
      { id := "w6", userId := "u6", name := "W6", triggers := none,
        actions := some [.vObj [("type", .vStr "delay"), ("config", .vObj [])]] }
      (.vObj [])).error = some ("Action " ++ natRepr (0 + 1) ++ " failed: " ++ "boom") ∧
    (finalRecord (executeWorkflow
      (fun _ _ _ => .ok { success := false, data := .vUndef, error := some "boom" })
      "exec6"
      { id := "w6", userId := "u6", name := "W6", triggers := none,
        actions := some [.vObj [("type", .vStr "delay"), ("config", .vObj [])]] }
      (.vObj [])).events).status = "failed" ∧
    (finalRecord (executeWorkflow
      (fun _ _ _ => .ok { success := false, data := .vUndef, error := some "boom" })
      "exec6"
      { id := "w6", userId := "u6", name := "W6", triggers := none,
        actions := some [.vObj [("type", .vStr "delay"), ("config", .vObj [])]] }
      (.vObj [])).events).error = some "boom" := by
  have h := (spec_c1_action_failure
    (fun _ _ _ => .ok { success := false, data := .vUndef, error := some "boom" })
    "exec6"
    { id := "w6", userId := "u6", name := "W6", triggers := none,
      actions := some [.vObj [("type", .vStr "delay"), ("config", .vObj [])]] }
    (.vObj [])).1 0
    (substituteVariables (.vObj [("type", .vStr "delay"), ("config", .vObj [])])
      (contextToValue (initialContext
        { id := "w6", userId := "u6", name := "W6", triggers := none,
          actions := some [.vObj [("type", .vStr "delay"), ("config", .vObj [])]] }
        (.vObj []))))
    { success := false, data := .vUndef, error := some "boom" } "boom"
    (List.Mem.tail _ (List.Mem.head _)) rfl rfl
  exact ⟨h.1, h.2.1, h.2.2.1, h.2.2.2.1⟩

/-- A successful trigger validation returns exactly the raw trigger data. -/
theorem validateTrigger_ok_data {t : Value} {ctx : WorkflowContext} {r : ActionResult}
    (h : validateTrigger t ctx = .ok r) (hs : r.success = true) :
    r.data = ctx.triggerData := by
  cases t with
  | vNull => simp [validateTrigger] at h
  | vUndef => simp [validateTrigger] at h
  | vBool b => injection h with h'; rw [← h'] at hs; simp at hs
  | vNum n => injection h with h'; rw [← h'] at hs; simp at hs
  | vStr s2 => injection h with h'; rw [← h'] at hs; simp at hs
  | vArr elems => injection h with h'; rw [← h'] at hs; simp at hs
  | vObj fields =>
    have hred : validateTrigger (Value.vObj fields) ctx =
        match jsProp (Value.vObj fields) "type" with
        | .vStr "webhook" => .ok { success := true, data := ctx.triggerData, error := none }
        | .vStr "manual" => .ok { success := true, data := ctx.triggerData, error := none }
        | .vStr "email" => .ok { success := true, data := ctx.triggerData, error := none }
        | .vStr "schedule" => .ok { success := true, data := ctx.triggerData, error := none }
        | tv => .ok { success := false, data := .vUndef,
                      error := some ("Unknown trigger type: " ++ jsString tv) } := rfl
    rw [hred] at h
    split at h
    · injection h with h'; rw [← h']
    · injection h with h'; rw [← h']
    · injection h with h'; rw [← h']
    · injection h with h'; rw [← h']
    · injection h with h'
      rw [← h'] at hs
      simp at hs

/-- C6: when action `k` fails, no action with a greater index is ever
dispatched and the final step results are exactly the trigger entries plus
one entry per action `0..k-1` (mirrored into `variables` under the
`_result` suffix); and within a run both maps only grow — each validated
trigger writes its `trigger_<type>` entry (re-writing only ever stores the
identical trigger data, so existing entries never change), and each
successful action appends its fresh `action_<i>` and `action_<i>_result`
entries, preserving every existing entry. -/
theorem spec_c6_order_and_growth (handlers : HandlerOracle) (eid : String)
    (wf : Workflow) (td : Value) (tc : WorkflowContext)
    (ht : runTriggers (initialContext wf td) (triggerListOf wf) = .ok tc) :
    (∀ k err fc evs,
      runActions handlers tc 0 (actionListOf wf) = .failed k err fc evs →
      (∀ j b o, EngineEvent.dispatched j b o ∈ (executeWorkflow handlers eid wf td).events →
        j ≤ k) ∧
      ∃ entries : List (String × Value),
        fc.stepResults = tc.stepResults ++ entries ∧
        entries.map Prod.fst = (List.range k).map (fun j => "action_" ++ natRepr j) ∧
        fc.«variables» = tc.«variables» ++ entries.map (fun p => (p.1 ++ "_result", p.2)) ∧
        (∀ p ∈ tc.stepResults, ∃ t ∈ triggerListOf wf,
          p.1 = "trigger_" ++ jsString (jsProp t "type")) ∧
        (∀ t ∈ triggerListOf wf, ∃ v,
          tc.stepResults.lookup ("trigger_" ++ jsString (jsProp t "type")) = some v)) ∧
    (∀ n t c1 c2 r,
      (triggerListOf wf)[n]? = some t →
      runTriggers (initialContext wf td) ((triggerListOf wf).take n) = .ok c1 →
      runTriggers (initialContext wf td) ((triggerListOf wf).take (n + 1)) = .ok c2 →
      validateTrigger t c1 = .ok r → r.success = true →
      c2.stepResults = objSet c1.stepResults
        ("trigger_" ++ jsString (jsProp t "type")) r.data ∧
      c2.«variables» = c1.«variables» ∧
      mapPreserved c1.stepResults c2.stepResults) ∧
    (∀ n a c1 evs1 r,
      runActions handlers tc 0 ((actionListOf wf).take n) = .ok c1 evs1 →
      (actionListOf wf)[n]? = some a →
      executeAction handlers (substituteVariables a (contextToValue c1)) c1 = .ok r →
      r.success = true →
      runActions handlers tc 0 ((actionListOf wf).take (n + 1)) =
        .ok { c1 with
              stepResults := objSet c1.stepResults ("action_" ++ natRepr n) r.data,
              «variables» := objSet c1.«variables»
                ("action_" ++ natRepr n ++ "_result") r.data }
          (evs1 ++ [.dispatched n (substituteVariables a (contextToValue c1)) (.ok r)]) ∧
      mapPreserved c1.stepResults
        (objSet c1.stepResults ("action_" ++ natRepr n) r.data) ∧
      mapPreserved c1.«variables»
        (objSet c1.«variables» ("action_" ++ natRepr n ++ "_result") r.data)) := by
  have hall0 : ∀ p ∈ (initialContext wf td).stepResults,
      p.2 = (initialContext wf td).triggerData := by
    intro p hp
    simp [initialContext] at hp
  obtain ⟨hfs, hfv⟩ := tc_freshness ht
  refine ⟨?_, ?_, ?_⟩
  · intro k err fc evs ha
    obtain ⟨l1, abad, l2, rbad, evs', hacts, hj, hok, hda, hsucc, herr, hevs⟩ :=
      runActions_failed_decomp _ ha
    obtain ⟨entries, heS, heV, heK, _, _, _, hev'⟩ :=
      runActions_ok_shape l1 tc 0 hok hfs hfv
    obtain ⟨_, _, _, _, _, _, hsrc, hrec⟩ :=
      runTriggers_ok_props (triggerListOf wf) ht hall0
    constructor
    · rw [executeWorkflow_eq_failed eid ht ha]
      intro j b o hj2
      rw [List.cons_append] at hj2
      rcases List.mem_cons.mp hj2 with heq3 | hj3
      · cases heq3
      · rcases List.mem_append.mp hj3 with hj4 | hj4
        · rw [hevs] at hj4
          rcases List.mem_append.mp hj4 with hj5 | hj5
          · obtain ⟨_, hlt, _⟩ := hev' j b o hj5
            rw [hj]
            simp at hlt
            omega
          · rcases List.mem_singleton.mp hj5 with heq4
            injection heq4 with hj6
            omega
        · simp [updateExecutionStatus] at hj4
    · refine ⟨entries, heS, ?_, heV, ?_, hrec⟩
      · rw [heK, hj]
        simp only [Nat.zero_add]
      · intro p hp
        rcases hsrc p hp with hp' | hp'
        · simp [initialContext] at hp'
        · exact hp'
  · intro n t c1 c2 r hget htake1 htake2 hval hrs
    have htk : (triggerListOf wf).take (n + 1) = (triggerListOf wf).take n ++ [t] := by
      rw [List.take_succ, hget]
      rfl
    rw [htk, runTriggers_append_ok _ htake1 [t], runTriggers_cons, hval] at htake2
    dsimp only at htake2
    rw [if_pos hrs] at htake2
    rw [runTriggers] at htake2
    obtain ⟨h1, h2, h3, hvv, hpres2, hall2, hsrc2, hrec2⟩ :=
      runTriggers_ok_props ((triggerListOf wf).take n) htake1 hall0
    cases htake2
    refine ⟨rfl, rfl, ?_⟩
    have hrd : r.data = c1.triggerData := validateTrigger_ok_data hval hrs
    have halld : ∀ p ∈ c1.stepResults, p.2 = r.data := by
      intro p hp
      rw [hrd, h3]
      exact hall2 p hp
    rcases objSet_of_all_eq ("trigger_" ++ jsString (jsProp t "type")) halld with
      heq | heq
    · rw [heq]
      exact mapPreserved_refl _
    · rw [heq]
      exact mapPreserved_append _ _
  · intro n a c1 evs1 r htake1 hget hda hrs
    obtain ⟨hnlt, _⟩ := List.getElem?_eq_some.mp hget
    have hlen : ((actionListOf wf).take n).length = n := by
      rw [List.length_take]
      omega
    have htk : (actionListOf wf).take (n + 1) = (actionListOf wf).take n ++ [a] := by
      rw [List.take_succ, hget]
      rfl
    obtain ⟨entries, heS, heV, heK, _, _, _, _⟩ :=
      runActions_ok_shape ((actionListOf wf).take n) tc 0 htake1 hfs hfv
    have hfreshS : ∀ p ∈ c1.stepResults, p.1 ≠ "action_" ++ natRepr n := by
      intro p hp
      rw [heS] at hp
      rcases List.mem_append.mp hp with hp' | hp'
      · exact hfs n (Nat.zero_le n) p hp'
      · intro hk
        have hpk : p.1 ∈ entries.map Prod.fst := List.mem_map_of_mem Prod.fst hp'
        rw [heK] at hpk
        obtain ⟨j, hjmem, hjk⟩ := List.mem_map.mp hpk
        rw [← hjk] at hk
        have hjn := actionKey_inj hk
        have hjlt : j < ((actionListOf wf).take n).length := List.mem_range.mp hjmem
        rw [hlen] at hjlt
        omega
    have hfreshV : ∀ p ∈ c1.«variables», p.1 ≠ "action_" ++ natRepr n ++ "_result" := by
      intro p hp
      rw [heV] at hp
      rcases List.mem_append.mp hp with hp' | hp'
      · exact hfv n (Nat.zero_le n) p hp'
      · intro hk
        obtain ⟨q, hq, hqp⟩ := List.mem_map.mp hp'
        have hqk : q.1 ∈ entries.map Prod.fst := List.mem_map_of_mem Prod.fst hq
        rw [heK] at hqk
        obtain ⟨j, hjmem, hjk⟩ := List.mem_map.mp hqk
        have hpk : p.1 = q.1 ++ "_result" := by rw [← hqp]
        rw [hpk, ← hjk] at hk
        have hjn := actionVarKey_inj hk
        have hjlt : j < ((actionListOf wf).take n).length := List.mem_range.mp hjmem
        rw [hlen] at hjlt
        omega
    have hstep : runActions handlers c1 (0 + ((actionListOf wf).take n).length) [a] =
        .ok { c1 with
              stepResults := objSet c1.stepResults ("action_" ++ natRepr n) r.data,
              «variables» := objSet c1.«variables»
                ("action_" ++ natRepr n ++ "_result") r.data }
          [.dispatched n (substituteVariables a (contextToValue c1)) (.ok r)] := by
      rw [hlen, Nat.zero_add, runActions_cons, hda]
      dsimp only
      rw [if_pos hrs]
      rfl
    refine ⟨?_, ?_, ?_⟩
    · rw [htk, runActions_append_ok _ htake1 [a], hstep]
    · rw [objSet_fresh r.data hfreshS]
      exact mapPreserved_append _ _
    · rw [objSet_fresh r.data hfreshV]
      exact mapPreserved_append _ _

/-- Witness for C6: on the concrete run — one webhook trigger, a succeeding
`delay` action and a failing `sms` action — the growth law instantiated at the
first action extends `stepResults` with `action_0` and `variables` with
`action_0_result`, preserving every existing entry. -/
theorem spec_c6_witness :
    runActions c6Handlers c6tc 0 ((actionListOf c6wf).take (0 + 1)) =
      ActionPhase.ok
        { c6tc with
            stepResults := objSet c6tc.stepResults ("action_" ++ natRepr 0) c6res0.data,
            «variables» := objSet c6tc.«variables»
              ("action_" ++ natRepr 0 ++ "_result") c6res0.data }
        ([] ++ [.dispatched 0 (substituteVariables c6act0 (contextToValue c6tc))
          (.ok c6res0)]) ∧
    mapPreserved c6tc.stepResults
      (objSet c6tc.stepResults ("action_" ++ natRepr 0) c6res0.data) ∧
    mapPreserved c6tc.«variables»
      (objSet c6tc.«variables» ("action_" ++ natRepr 0 ++ "_result") c6res0.data) :=
  (spec_c6_order_and_growth c6Handlers "exec-c6" c6wf c6td c6tc rfl).2.2
    0 c6act0 c6tc [] c6res0 rfl rfl rfl rfl
